import Mathlib

/-!
Verification of the MH/SM exchange core of the mh-sm-plugin repository.

The development shallowly embeds the functions of `src/mapping.py` and
`src/io_mh_sm_exchange.py` that compute the pixel/triangle correspondence
and the two aggregation directions, and proves the stated properties.

Modelling conventions, used uniformly below:
* Python floats are modelled as exact rationals; a non-finite float (NaN,
  the internal NODATA marker) is modelled as `none` in `Option ℚ`, and a
  finite value `v` as `some v`.  `np.isfinite v` becomes `Option.isSome`,
  and `np.isnan`-based exclusion coincides with it in this model.
* Python dictionaries are modelled as association lists in insertion
  order; `d.setdefault(k, []).append(x)` becomes `dapp`, `d.get` becomes
  `dchercher`/`dget`, and iteration over `d.items()` is a fold over the
  association list.
* Numpy arrays indexed by the algorithms are modelled as total functions
  from their index type; writes become pointwise functional updates.
* The shapely polygon intersection `Polygon.intersection(box)` together
  with `.area` is modelled by exact Sutherland-Hodgman clipping of the
  triangle against the four half planes of the axis-aligned pixel,
  followed by the shoelace area (shapely computes exactly this
  intersection polygon for a convex subject and a rectangle).
-/

/-- Valeur flottante du code Python : `none` est une valeur non finie
(NaN, marqueur interne du NODATA), `some q` une valeur finie. -/
abbrev Val : Type := Option ℚ

/-- Constante `NODATA_MH = 9999.0` de `io_mh_sm_exchange.py`. -/
def NODATA_MH : ℚ := 9999

/-- Recherche d'une cle dans un dictionnaire Python modelise par liste
d'association (ordre d'insertion). -/
def dchercher {κ β : Type} [DecidableEq κ] (d : List (κ × β)) (k : κ) : Option β :=
  match d with
  | [] => none
  | e :: r => if e.1 = k then some e.2 else dchercher r k

/-- Lecture `d.get(k, [])` d'un dictionnaire de listes. -/
def dget {κ α : Type} [DecidableEq κ] (d : List (κ × List α)) (k : κ) : List α :=
  (dchercher d k).getD []

/-- Operation Python `d.setdefault(k, []).append(v)` : ajoute `v` en fin de
la liste associee a `k`, en creant l'entree en fin de dictionnaire si absente. -/
def dapp {κ α : Type} [DecidableEq κ] (d : List (κ × List α)) (k : κ) (v : α) :
    List (κ × List α) :=
  match d with
  | [] => [(k, [v])]
  | e :: r => if e.1 = k then (e.1, e.2 ++ [v]) :: r else e :: dapp r k v

/-- Operation Python `d[k] = d.get(k, [])` : sans effet si la cle existe,
sinon insere l'entree `(k, [])` en fin de dictionnaire. -/
def dsetdef {κ α : Type} [DecidableEq κ] (d : List (κ × List α)) (k : κ) :
    List (κ × List α) :=
  match dchercher d k with
  | some _ => d
  | none => d ++ [(k, [])]

/-- Insertion en sequence d'un flux d'enregistrements `(cle, valeur)` par
`setdefault(...).append(...)` : c'est la forme commune des boucles de
remplissage de dictionnaires du code source. -/
def dverse {κ α : Type} [DecidableEq κ] (d : List (κ × List α))
    (l : List (κ × α)) : List (κ × List α) :=
  l.foldl (fun m e => dapp m e.1 e.2) d

/-- Boucle Python `for id in range(nb): d[id] = d.get(id, [])`. -/
def dremplir {α : Type} (d : List (ℕ × List α)) (nb : ℕ) : List (ℕ × List α) :=
  (List.range nb).foldl (fun m k => dsetdef m k) d

/-- Selection des valeurs d'un flux d'enregistrements portant une cle donnee. -/
def choisir {κ α : Type} [DecidableEq κ] (k : κ) (l : List (κ × α)) : List α :=
  l.filterMap fun e => if e.1 = k then some e.2 else none

/-- Troncature vers zero de Python `int(...)` appliquee a un flottant. -/
def truncQ (q : ℚ) : ℤ := if 0 ≤ q then ⌊q⌋ else ⌈q⌉

/-- Geotransform GDAL `gt = (x_min, dx, rx, y_max, ry, dy)` du code source. -/
structure GeoTransform where
  x0 : ℚ
  dx : ℚ
  rx : ℚ
  y0 : ℚ
  ry : ℚ
  dy : ℚ
deriving DecidableEq

/-- Fonction `xy_vers_pixel` de `mapping.py` :
`colonne = int((x - gt[0]) / gt[1]); ligne = int((y - gt[3]) / gt[5])`,
retournee dans l'ordre `(ligne, colonne)`.  `int(...)` tronque vers zero. -/
def xy_vers_pixel (x y : ℚ) (gt : GeoTransform) : ℤ × ℤ :=
  (truncQ ((y - gt.y0) / gt.dy), truncQ ((x - gt.x0) / gt.dx))

/-- Point 2D : seules les coordonnees X et Y des sommets sont utilisees par
le mapping (le code lit `pts[i, 0]` et `pts[i, 1]`). -/
abbrev Point : Type := ℚ × ℚ

/-- Valeur affine `a*x + b*y - c` definissant le demi-plan `fval ≤ 0`. -/
def fval (a b c : ℚ) (p : Point) : ℚ := a * p.1 + b * p.2 - c

/-- Point d'intersection du segment `[p, q]` avec la droite `a*x + b*y = c`. -/
def interSeg (a b c : ℚ) (p q : Point) : Point :=
  let t := (0 - fval a b c p) / (fval a b c q - fval a b c p)
  (p.1 + t * (q.1 - p.1), p.2 + t * (q.2 - p.2))

/-- Ecretage de Sutherland-Hodgman d'un polygone par le demi-plan
`a*x + b*y ≤ c` : pour chaque arete orientee `(s, e)` du polygone on emet
`e` s'il est interieur, precede du point d'intersection si l'arete traverse
la frontiere. -/
def clipDemiPlan (a b c : ℚ) (poly : List Point) : List Point :=
  (poly.zip (poly.rotate 1)).flatMap fun se =>
    if fval a b c se.2 ≤ 0 then
      if fval a b c se.1 ≤ 0 then [se.2] else [interSeg a b c se.1 se.2, se.2]
    else
      if fval a b c se.1 ≤ 0 then [interSeg a b c se.1 se.2] else []

/-- Intersection d'un polygone avec le rectangle `[xmin, xmax] × [ymin, ymax]`
(le `box(...)` de shapely), par ecretage successif des quatre demi-plans. -/
def clipRect (poly : List Point) (xmin ymin xmax ymax : ℚ) : List Point :=
  clipDemiPlan 0 1 ymax
    (clipDemiPlan 0 (-1) (-ymin)
      (clipDemiPlan 1 0 xmax
        (clipDemiPlan (-1) 0 (-xmin) poly)))

/-- Aire signee d'un polygone par la formule du lacet. -/
def aireSignee (poly : List Point) : ℚ :=
  ((poly.zip (poly.rotate 1)).map fun pq => pq.1.1 * pq.2.2 - pq.2.1 * pq.1.2).sum / 2

/-- Aire (positive) d'un polygone, comme `.area` de shapely. -/
def airePoly (poly : List Point) : ℚ := |aireSignee poly|

/-- Aire exacte de l'intersection du triangle `p0 p1 p2` avec le rectangle
`[xmin, xmax] × [ymin, ymax]` : `poly_tri.intersection(poly_pixel).area`. -/
def aireInterPixel (p0 p1 p2 : Point) (xmin ymin xmax ymax : ℚ) : ℚ :=
  airePoly (clipRect [p0, p1, p2] xmin ymin xmax ymax)

/-- Liste des entiers de `a` a `b` inclus : boucle `range(a, b + 1)`. -/
def plageInt (a b : ℤ) : List ℤ :=
  (List.range (b + 1 - a).toNat).map fun (n : ℕ) => a + (n : ℤ)

/-- Corps de la boucle par triangle de `mapping_surface` (`mapping.py`) :
saute le triangle degenere (`poly_tri.is_empty or poly_tri.area <= 0`),
calcule la fenetre candidate de pixels par la boite englobante ecretee a la
grille, et pour chaque pixel candidat emet l'enregistrement
`((ligne, colonne), (id_tri, aire))` si l'aire d'intersection est `> 0`. -/
def enregsTriangle (gt : GeoTransform) (nbLignes nbColonnes : ℕ) (idTri : ℕ)
    (p0 p1 p2 : Point) : List ((ℤ × ℤ) × ℕ × ℚ) :=
  if airePoly [p0, p1, p2] ≤ 0 then [] else
  let minx := min p0.1 (min p1.1 p2.1)
  let maxx := max p0.1 (max p1.1 p2.1)
  let miny := min p0.2 (min p1.2 p2.2)
  let maxy := max p0.2 (max p1.2 p2.2)
  let colMin := max ⌊(minx - gt.x0) / gt.dx⌋ 0
  let colMax := min ⌊(maxx - gt.x0) / gt.dx⌋ ((nbColonnes : ℤ) - 1)
  let ligMin := max ⌊(maxy - gt.y0) / gt.dy⌋ 0
  let ligMax := min ⌊(miny - gt.y0) / gt.dy⌋ ((nbLignes : ℤ) - 1)
  (plageInt ligMin ligMax).flatMap fun ligne =>
    (plageInt colMin colMax).flatMap fun colonne =>
      let pxMin := gt.x0 + colonne * gt.dx
      let pxMax := gt.x0 + (colonne + 1) * gt.dx
      let pyMax := gt.y0 + ligne * gt.dy
      let pyMin := gt.y0 + (ligne + 1) * gt.dy
      let aire := aireInterPixel p0 p1 p2 pxMin pyMin pxMax pyMax
      if 0 < aire then [((ligne, colonne), (idTri, aire))] else []

/-- Flux, dans l'ordre des boucles imbriquees de `mapping_surface`, de tous
les enregistrements `((ligne, colonne), (id_tri, aire))` produits par
`enumerate(triangles)`. -/
def fluxEnregs (points : ℕ → Point) (triangles : List (ℕ × ℕ × ℕ))
    (gt : GeoTransform) (nbLignes nbColonnes : ℕ) : List ((ℤ × ℤ) × ℕ × ℚ) :=
  triangles.enum.flatMap fun it =>
    enregsTriangle gt nbLignes nbColonnes it.1
      (points it.2.1) (points it.2.2.1) (points it.2.2.2)

/-- Fonction `mapping_surface` de `mapping.py` : dictionnaire
`mapping[(ligne, colonne)] = [(id_tri, aire), ...]` rempli par
`setdefault(...).append(...)` au fil des boucles imbriquees. -/
def mapping_surface (points : ℕ → Point) (triangles : List (ℕ × ℕ × ℕ))
    (gt : GeoTransform) (nbLignes nbColonnes : ℕ) : List ((ℤ × ℤ) × List (ℕ × ℚ)) :=
  dverse [] (fluxEnregs points triangles gt nbLignes nbColonnes)

/-- Barycentre XY d'un triangle : `triangles_xy.mean(axis=1)`. -/
def barycentreXY (p0 p1 p2 : Point) : Point :=
  ((p0.1 + p1.1 + p2.1) / 3, (p0.2 + p1.2 + p2.2) / 3)

/-- Fonction `mapping_barycentre` de `mapping.py` : chaque triangle est
affecte au pixel contenant son barycentre, avec le garde explicite
`0 <= ligne < nb_lignes and 0 <= colonne < nb_colonnes`. -/
def mapping_barycentre (points : ℕ → Point) (triangles : List (ℕ × ℕ × ℕ))
    (gt : GeoTransform) (nbLignes nbColonnes : ℕ) : List ((ℤ × ℤ) × List ℕ) :=
  triangles.enum.foldl (fun m it =>
    if 0 ≤ (xy_vers_pixel
          (barycentreXY (points it.2.1) (points it.2.2.1) (points it.2.2.2)).1
          (barycentreXY (points it.2.1) (points it.2.2.1) (points it.2.2.2)).2 gt).1 ∧
        (xy_vers_pixel
          (barycentreXY (points it.2.1) (points it.2.2.1) (points it.2.2.2)).1
          (barycentreXY (points it.2.1) (points it.2.2.1) (points it.2.2.2)).2 gt).1 <
            (nbLignes : ℤ) ∧
        0 ≤ (xy_vers_pixel
          (barycentreXY (points it.2.1) (points it.2.2.1) (points it.2.2.2)).1
          (barycentreXY (points it.2.1) (points it.2.2.1) (points it.2.2.2)).2 gt).2 ∧
        (xy_vers_pixel
          (barycentreXY (points it.2.1) (points it.2.2.1) (points it.2.2.2)).1
          (barycentreXY (points it.2.1) (points it.2.2.1) (points it.2.2.2)).2 gt).2 <
            (nbColonnes : ℤ) then
      dapp m (xy_vers_pixel
          (barycentreXY (points it.2.1) (points it.2.2.1) (points it.2.2.2)).1
          (barycentreXY (points it.2.1) (points it.2.2.1) (points it.2.2.2)).2 gt) it.1
    else m) []

/-- Fonction `inverser_mapping` de `io_mh_sm_exchange.py` : transpose le
dictionnaire pixel vers triangles en dictionnaire triangle vers pixels puis
garantit une entree (eventuellement vide) pour chaque id de `range(nb_triangles)`. -/
def inverser_mapping (mapPx : List ((ℤ × ℤ) × List (ℕ × ℚ))) (nbTriangles : ℕ) :
    List (ℕ × List (ℤ × ℤ × ℚ)) :=
  dremplir
    (mapPx.foldl (fun acc e =>
      e.2.foldl (fun acc2 p => dapp acc2 p.1 (e.1.1, e.1.2, p.2)) acc) [])
    nbTriangles

/-- Mise a jour ponctuelle `val_tri[k] = v` d'un tableau par triangle. -/
def maj (f : ℕ → Val) (k : ℕ) (v : Val) : ℕ → Val :=
  fun k2 => if k2 = k then v else f k2

/-- Valeur calculee pour un triangle par le corps de boucle de
`moyenne_pixels_par_triangle` : collecte des paires `(valeur, aire)` des
pixels a valeur finie, puis moyenne ponderee gardee par `sum(w) > 0` ou
moyenne simple; `none` signifie que la boucle n'affecte rien (`continue`)
et laisse la valeur de remplissage en place. -/
def valeurMoyennePixels (ras : ℤ → ℤ → Val) (pondere : Bool)
    (pixels : List (ℤ × ℤ × ℚ)) : Option ℚ :=
  if pixels = [] then none
  else if (pixels.filterMap fun p => (ras p.1 p.2.1).map fun v => (v, p.2.2)) = []
  then none
  else if pondere then
    if 0 < ((pixels.filterMap fun p =>
        (ras p.1 p.2.1).map fun v => (v, p.2.2)).map fun pr => pr.2).sum then
      some (((pixels.filterMap fun p =>
          (ras p.1 p.2.1).map fun v => (v, p.2.2)).map fun pr => pr.1 * pr.2).sum /
        ((pixels.filterMap fun p =>
          (ras p.1 p.2.1).map fun v => (v, p.2.2)).map fun pr => pr.2).sum)
    else none
  else
    some (((pixels.filterMap fun p =>
        (ras p.1 p.2.1).map fun v => (v, p.2.2)).map fun pr => pr.1).sum /
      ((pixels.filterMap fun p =>
        (ras p.1 p.2.1).map fun v => (v, p.2.2)).length : ℚ))

/-- Corps de la boucle par triangle de `moyenne_pixels_par_triangle` :
affecte `val_tri[id_tri]` quand une valeur est calculee, sinon laisse le
tableau inchange. -/
def etapeMoyenne (ras : ℤ → ℤ → Val) (pondere : Bool) (valTri : ℕ → Val)
    (e : ℕ × List (ℤ × ℤ × ℚ)) : ℕ → Val :=
  match valeurMoyennePixels ras pondere e.2 with
  | some v => maj valTri e.1 (some v)
  | none => valTri

/-- Fonction `moyenne_pixels_par_triangle` de `io_mh_sm_exchange.py` : le
tableau resultat est initialise a `rempl` puis rempli triangle par triangle
au fil de `tri_px.items()`. -/
def moyenne_pixels_par_triangle (ras : ℤ → ℤ → Val)
    (triPx : List (ℕ × List (ℤ × ℤ × ℚ))) (pondere : Bool) (rempl : Val) : ℕ → Val :=
  triPx.foldl (etapeMoyenne ras pondere) (fun _ => rempl)

/-- Moyenne numpy `np.mean` sur une liste de flottants : non finie des
qu'un element est non fini, sinon somme divisee par la longueur. -/
def npMean (l : List Val) : Val :=
  if none ∈ l ∨ l = [] then none
  else some ((l.filterMap id).sum / (l.length : ℚ))

/-- Mise a jour ponctuelle `ras_rec[lig, col] = v` du raster reconstruit. -/
def majPix (r : ℤ × ℤ → Val) (k : ℤ × ℤ) (v : Val) : ℤ × ℤ → Val :=
  fun k2 => if k2 = k then v else r k2

/-- Valeur calculee pour un pixel par le corps de boucle de
`sm_vers_mh_raster` : en mode simple la moyenne numpy de toutes les valeurs
de triangles (sans exclusion des non finies, la valeur affectee pouvant
donc etre NaN), en mode pondere l'accumulation en excluant aires `<= 0` et
valeurs non finies, gardee par `den > 0`; le resultat externe `none`
signifie que la boucle n'affecte pas ce pixel. -/
def valeurSmMh (valTri : ℕ → Val) (pondere : Bool)
    (lst : List (ℕ × ℚ)) : Option Val :=
  if lst = [] then none
  else if pondere = false then
    (if (lst.map fun p => valTri p.1) = [] then none
     else some (npMean (lst.map fun p => valTri p.1)))
  else if 0 < ((lst.filterMap fun p => if p.2 ≤ 0 then none
      else (valTri p.1).map fun v => (v, p.2)).map fun pr => pr.2).sum then
    some (some (((lst.filterMap fun p => if p.2 ≤ 0 then none
        else (valTri p.1).map fun v => (v, p.2)).map fun pr => pr.1 * pr.2).sum /
      ((lst.filterMap fun p => if p.2 ≤ 0 then none
        else (valTri p.1).map fun v => (v, p.2)).map fun pr => pr.2).sum))
  else none

/-- Corps de la boucle par pixel de `sm_vers_mh_raster` : affecte
`ras_rec[lig, col]` quand une valeur est calculee, sinon laisse le raster
inchange. -/
def etapeSmMh (valTri : ℕ → Val) (pondere : Bool) (ras : ℤ × ℤ → Val)
    (e : (ℤ × ℤ) × List (ℕ × ℚ)) : ℤ × ℤ → Val :=
  match valeurSmMh valTri pondere e.2 with
  | some v => majPix ras e.1 v
  | none => ras

/-- Boucle d'agregation de `sm_vers_mh_raster` (`io_mh_sm_exchange.py`,
etape 6) : raster initialise a NaN puis rempli pixel par pixel au fil de
`map_px.items()`. -/
def sm_vers_mh_raster (mapPx : List ((ℤ × ℤ) × List (ℕ × ℚ))) (valTri : ℕ → Val)
    (pondere : Bool) : ℤ × ℤ → Val :=
  mapPx.foldl (etapeSmMh valTri pondere) (fun _ => none)

/-- Valeur calculee pour un pixel par le corps de boucle de
`projette_triangles_surface` (`mapping.py`) : accumulation ponderee en
excluant les valeurs NaN, affectation gardee par `den > 0`; `none` signifie
que la boucle n'affecte pas ce pixel. -/
def valeurProjSurf (valeurs : ℕ → Val) (liste : List (ℕ × ℚ)) : Option Val :=
  if 0 < ((liste.filterMap fun p =>
      (valeurs p.1).map fun v => (v, p.2)).map fun pr => pr.2).sum then
    some (some (((liste.filterMap fun p =>
        (valeurs p.1).map fun v => (v, p.2)).map fun pr => pr.1 * pr.2).sum /
      ((liste.filterMap fun p =>
        (valeurs p.1).map fun v => (v, p.2)).map fun pr => pr.2).sum))
  else none

/-- Corps de la boucle par pixel de `projette_triangles_surface`. -/
def etapeProjSurf (valeurs : ℕ → Val) (ras : ℤ × ℤ → Val)
    (e : (ℤ × ℤ) × List (ℕ × ℚ)) : ℤ × ℤ → Val :=
  match valeurProjSurf valeurs e.2 with
  | some v => majPix ras e.1 v
  | none => ras

/-- Fonction `projette_triangles_surface` de `mapping.py` avec le
remplissage par defaut NaN. -/
def projette_triangles_surface (valeurs : ℕ → Val)
    (mapSurf : List ((ℤ × ℤ) × List (ℕ × ℚ))) : ℤ × ℤ → Val :=
  mapSurf.foldl (etapeProjSurf valeurs) (fun _ => none)

/-- Arrondi au plus proche entier avec egalite vers le pair, comme le
formatage IEEE des flottants Python. -/
def rne (q : ℚ) : ℤ :=
  if q - ⌊q⌋ < 1 / 2 then ⌊q⌋
  else if 1 / 2 < q - ⌊q⌋ then ⌊q⌋ + 1
  else if ⌊q⌋ % 2 = 0 then ⌊q⌋ else ⌊q⌋ + 1

/-- Valeur relue apres formatage Python `f"{v:.2f}"` : arrondi au plus
proche multiple de `1/100`, egalite vers le pair. -/
def round2 (q : ℚ) : ℚ := (rne (100 * q) : ℚ) / 100

/-- Minimum (`np.min`) d'une liste de rationnels, `0.0` si elle est vide,
comme le repli `vmin` de `ecrire_val`. -/
def minListe (l : List ℚ) : ℚ :=
  match l with
  | [] => 0
  | x :: r => r.foldl min x

/-- Maximum (`np.max`) d'une liste de rationnels, `0.0` si elle est vide. -/
def maxListe (l : List ℚ) : ℚ :=
  match l with
  | [] => 0
  | x :: r => r.foldl max x

/-- Ligne d'un fichier `.val`, sous forme structuree : l'en-tete
`"{nf} {nf}\t {vmin:.2f} {vmax:.2f}"`, une ligne de facette `"f{i} {nb}"`,
ou une ligne de valeur `"\t{v:.2f}"`.  Le contenu numerique porte par
chaque ligne est exactement ce que le texte encode. -/
inductive LigneVal : Type
  | entete (nf1 nf2 : ℕ) (vmin vmax : ℚ)
  | fac (idx nb : ℕ)
  | valeur (v : ℚ)
deriving DecidableEq

/-- Blocs par facette ecrits par `ecrire_val` : pour la `i`-eme facette de
taille `nb`, la ligne `f{i} {nb}` puis `nb` lignes de valeurs, chaque
valeur non finie remplacee par `0.0` puis formatee a deux decimales. -/
def blocsVal (tailles : List ℕ) (indice : ℕ) (vals : List Val) : List LigneVal :=
  match tailles with
  | [] => []
  | nb :: reste =>
    LigneVal.fac indice nb ::
      ((vals.take nb).map fun v => LigneVal.valeur (round2 (v.getD 0))) ++
        blocsVal reste (indice + 1) (vals.drop nb)

/-- Fonction `ecrire_val` de `io_mh_sm_exchange.py`, vue comme production
de la liste des lignes du fichier `.val` : en-tete avec nombre de facettes
et min/max des valeurs finies, puis blocs par facette (indices a partir
de 1). -/
def ecrire_val (tailles : List ℕ) (valTri : List Val) : List LigneVal :=
  let fini := valTri.filterMap id
  LigneVal.entete tailles.length tailles.length
      (round2 (minListe fini)) (round2 (maxListe fini)) ::
    blocsVal tailles 1 valTri

/-- Lecture Python `float(ligne.split()[0])` appliquee a une ligne : sur
une ligne de valeur c'est la valeur, sur l'en-tete c'est son premier champ;
sur une ligne de facette Python leverait `ValueError` (`float("fK")`), cas
jamais atteint sur un fichier produit par `ecrire_val` et modelise par 0. -/
def premierFloat (l : LigneVal) : ℚ :=
  match l with
  | LigneVal.entete nf1 _ _ _ => (nf1 : ℚ)
  | LigneVal.fac _ _ => 0
  | LigneVal.valeur v => v

/-- Boucle principale de `lire_val`, avec le compteur de valeurs restantes
du bloc courant : sur une ligne `f... nb` hors bloc, les `nb` lignes
suivantes sont lues comme valeurs (`float(ligne.split()[0])`) puis le
parcours reprend; hors bloc toute autre ligne est sautee. -/
def lireBoucle (lignes : List LigneVal) (enAttente : ℕ) : List ℚ :=
  match lignes, enAttente with
  | [], _ => []
  | lg :: reste, 0 =>
      match lg with
      | LigneVal.fac _ nb => lireBoucle reste nb
      | _ => lireBoucle reste 0
  | lg :: reste, n + 1 => premierFloat lg :: lireBoucle reste n

/-- Fonction `lire_val` de `io_mh_sm_exchange.py` : liste vide pour un
fichier vide, sinon parcours des lignes a partir de l'indice 1. -/
def lire_val (lignes : List LigneVal) : List ℚ :=
  if lignes = [] then [] else lireBoucle (lignes.drop 1) 0

/-- En-tete ASCII grid apres la passe d'analyse de `lire_mh_ascii` : les
six champs attendus, `nodata_value` optionnel
(`entete.get("nodata_value", NODATA_MH)`). -/
structure EnteteMH where
  ncols : ℕ
  nrows : ℕ
  xllcorner : ℚ
  yllcorner : ℚ
  cellsize : ℚ
  nodata_value : Option ℚ
deriving DecidableEq

/-- Coeur de `lire_mh_ascii` (`io_mh_sm_exchange.py`), apres analyse de
l'en-tete et des lignes de donnees : construit le geotransform
`(xll, pas, 0, y_max, 0, -pas)`, remplace par NaN toute cellule egale au
NODATA declare du fichier puis toute cellule egale a `NODATA_MH`, et
retourne toujours `NODATA_MH` comme valeur nodata de reference.  Le
`reshape` en `(nrows, ncols)` etant une bijection ligne par ligne, le
raster est garde sous forme de liste en ordre de lecture. -/
def lire_mh_ascii (entete : EnteteMH) (vals : List ℚ) :
    List Val × GeoTransform × ℚ :=
  let nodataFichier := entete.nodata_value.getD NODATA_MH
  let yMax := entete.yllcorner + (entete.nrows : ℚ) * entete.cellsize
  let gt : GeoTransform :=
    ⟨entete.xllcorner, entete.cellsize, 0, yMax, 0, -entete.cellsize⟩
  let ras := vals.map fun v =>
    if v = nodataFichier ∨ v = NODATA_MH then none else some v
  (ras, gt, NODATA_MH)

/-- Flux des enregistrements `(id_tri, (lig, col, aire))` parcourus par les
deux boucles imbriquees de `inverser_mapping`, dans l'ordre du code. -/
def fluxTranspose (mapPx : List ((ℤ × ℤ) × List (ℕ × ℚ))) :
    List (ℕ × (ℤ × ℤ × ℚ)) :=
  mapPx.flatMap fun e => e.2.map fun p => (p.1, (e.1.1, e.1.2, p.2))

/-- Appartenance au triangle plein (enveloppe convexe des trois sommets)
en coordonnees barycentriques : c'est l'empreinte XY du triangle. -/
def dansTri (p0 p1 p2 q : Point) : Prop :=
  ∃ a b c : ℚ, 0 ≤ a ∧ 0 ≤ b ∧ 0 ≤ c ∧ a + b + c = 1 ∧
    q = (a * p0.1 + b * p1.1 + c * p2.1, a * p0.2 + b * p1.2 + c * p2.2)

/-- Appartenance a l'etendue de la grille : le rectangle
`[x_min, x_min + ncols*dx] × [y_max + nrows*dy, y_max]`. -/
def dansEtendue (gt : GeoTransform) (nbLignes nbColonnes : ℕ) (q : Point) : Prop :=
  gt.x0 ≤ q.1 ∧ q.1 ≤ gt.x0 + (nbColonnes : ℚ) * gt.dx ∧
  gt.y0 + (nbLignes : ℚ) * gt.dy ≤ q.2 ∧ q.2 ≤ gt.y0

/-- Partie convexe au sens des segments : stable par interpolation
lineaire entre deux de ses points. -/
def fermeParSegment (S : Set Point) : Prop :=
  ∀ p ∈ S, ∀ q ∈ S, ∀ t : ℚ, 0 ≤ t → t ≤ 1 →
    (p.1 + t * (q.1 - p.1), p.2 + t * (q.2 - p.2)) ∈ S

lemma dchercher_dapp {κ α : Type} [DecidableEq κ] (d : List (κ × List α))
    (k : κ) (v : α) (k2 : κ) :
    dchercher (dapp d k v) k2 =
      if k2 = k then some (dget d k ++ [v]) else dchercher d k2 := by
  induction d with
  | nil =>
      by_cases h : k2 = k
      · simp [dapp, dchercher, dget, h]
      · have h2 : ¬ k = k2 := fun hh => h hh.symm
        simp [dapp, dchercher, h, h2]
  | cons e r ih =>
      by_cases he : e.1 = k
      · by_cases h2 : k2 = k
        · subst h2; simp [dapp, dchercher, dget, he]
        · have hk : ¬ k = k2 := fun hh => h2 hh.symm
          simp [dapp, dchercher, he, h2, hk]
      · by_cases h2 : e.1 = k2
        · have hk2 : ¬ k2 = k := by rw [← h2]; exact fun hh => he hh
          simp [dapp, dchercher, he, h2, hk2]
        · by_cases h3 : k2 = k
          · subst h3
            simp [dapp, dchercher, he, h2, ih, dget]
          · simp [dapp, dchercher, he, h2, h3, ih]

lemma dget_dapp {κ α : Type} [DecidableEq κ] (d : List (κ × List α))
    (k : κ) (v : α) (k2 : κ) :
    dget (dapp d k v) k2 = if k2 = k then dget d k ++ [v] else dget d k2 := by
  by_cases h : k2 = k <;> simp [dget, dchercher_dapp, h]

lemma choisir_nil {κ α : Type} [DecidableEq κ] (k : κ) :
    choisir k ([] : List (κ × α)) = [] := rfl

lemma choisir_cons {κ α : Type} [DecidableEq κ] (k : κ) (e : κ × α)
    (l : List (κ × α)) :
    choisir k (e :: l) =
      (if e.1 = k then [e.2] else []) ++ choisir k l := by
  by_cases h : e.1 = k <;> simp [choisir, h]

lemma dget_dverse {κ α : Type} [DecidableEq κ] (d : List (κ × List α))
    (l : List (κ × α)) (k : κ) :
    dget (dverse d l) k = dget d k ++ choisir k l := by
  induction l generalizing d with
  | nil => simp [dverse, choisir]
  | cons e r ih =>
      have : dverse d (e :: r) = dverse (dapp d e.1 e.2) r := rfl
      rw [this, ih, choisir_cons, dget_dapp]
      by_cases h : e.1 = k
      · simp [h, List.append_assoc]
      · have h2 : ¬ k = e.1 := fun hh => h hh.symm
        simp [h, h2]

lemma dchercher_dverse_some {κ α : Type} [DecidableEq κ] (d : List (κ × List α))
    (l : List (κ × α)) (k : κ) (lst : List α)
    (h : dchercher (dverse d l) k = some lst) :
    (dchercher d k).isSome ∨ k ∈ l.map Prod.fst := by
  induction l generalizing d with
  | nil => left; simp [dverse] at h; simp [h]
  | cons e r ih =>
      have he : dverse d (e :: r) = dverse (dapp d e.1 e.2) r := rfl
      rw [he] at h
      rcases ih (dapp d e.1 e.2) h with h1 | h1
      · by_cases hk : k = e.1
        · right; simp [hk]
        · left
          rw [dchercher_dapp] at h1
          simpa [hk] using h1
      · right; simp [h1]

lemma dchercher_append {κ β : Type} [DecidableEq κ] (d1 d2 : List (κ × β)) (k : κ) :
    dchercher (d1 ++ d2) k =
      ((dchercher d1 k).rec (dchercher d2 k) fun v => some v) := by
  induction d1 with
  | nil => simp [dchercher]
  | cons e r ih =>
      by_cases h : e.1 = k <;> simp [dchercher, h, ih]

lemma dchercher_dsetdef {κ α : Type} [DecidableEq κ] (d : List (κ × List α))
    (k k2 : κ) :
    dchercher (dsetdef d k) k2 =
      if k2 = k then some (dget d k) else dchercher d k2 := by
  unfold dsetdef
  cases hch : dchercher d k with
  | some v =>
      by_cases h : k2 = k
      · subst h; simp [hch, dget]
      · simp [h]
  | none =>
      rw [dchercher_append]
      by_cases h : k2 = k
      · subst h; simp [hch, dchercher, dget]
      · have h2 : ¬ k = k2 := fun hh => h hh.symm
        cases hc2 : dchercher d k2 <;> simp [hc2, dchercher, h2, h]

lemma dremplir_succ {α : Type} (d : List (ℕ × List α)) (nb : ℕ) :
    dremplir d (nb + 1) = dsetdef (dremplir d nb) nb := by
  unfold dremplir
  rw [List.range_succ, List.foldl_append]
  rfl

lemma dchercher_dremplir {α : Type} (d : List (ℕ × List α)) (nb : ℕ) (k : ℕ) :
    dchercher (dremplir d nb) k =
      if k < nb then some (dget d k) else dchercher d k := by
  induction nb with
  | zero => simp [dremplir, List.range_zero]
  | succ n ih =>
      rw [dremplir_succ, dchercher_dsetdef]
      by_cases h : k = n
      · subst h
        simp [Nat.lt_succ_self, dget, ih]
      · by_cases h2 : k < n
        · simp [h, ih, h2, Nat.lt_succ_of_lt h2]
        · have h3 : ¬ k < n + 1 := by omega
          simp [h, ih, h2, h3]

lemma mem_choisir {κ α : Type} [DecidableEq κ] (k : κ) (l : List (κ × α)) (x : α) :
    x ∈ choisir k l ↔ (k, x) ∈ l := by
  unfold choisir
  simp only [List.mem_filterMap]
  constructor
  · rintro ⟨e, he, hx⟩
    by_cases h : e.1 = k
    · rw [if_pos h] at hx
      have hx2 : e.2 = x := Option.some_injective _ hx
      have : e = (k, x) := by
        rw [← h, ← hx2]
      rw [← this]; exact he
    · rw [if_neg h] at hx
      exact absurd hx (Option.noConfusion)
  · intro h
    exact ⟨(k, x), h, by simp⟩

lemma choisir_append {κ α : Type} [DecidableEq κ] (k : κ) (l1 l2 : List (κ × α)) :
    choisir k (l1 ++ l2) = choisir k l1 ++ choisir k l2 := by
  unfold choisir
  exact List.filterMap_append l1 l2 _

lemma choisir_map_paire {κ α β : Type} [DecidableEq κ] (k : κ) (l : List α)
    (cle : α → κ) (f : α → β) :
    choisir k (l.map fun p => (cle p, f p)) =
      (l.filter fun p => cle p = k).map f := by
  induction l with
  | nil => rfl
  | cons p r ih =>
      by_cases h : cle p = k
      · simp [choisir, List.filter_cons, h] at ih ⊢
        exact ih
      · simp [choisir, List.filter_cons, h] at ih ⊢
        exact ih

lemma dget_dremplir {α : Type} (d : List (ℕ × List α)) (nb : ℕ) (k : ℕ) :
    dget (dremplir d nb) k = dget d k := by
  unfold dget
  rw [dchercher_dremplir]
  by_cases h : k < nb <;> simp [h, dget]

lemma dverse_append {κ α : Type} [DecidableEq κ] (d : List (κ × List α))
    (l1 l2 : List (κ × α)) :
    dverse d (l1 ++ l2) = dverse (dverse d l1) l2 := by
  unfold dverse
  exact List.foldl_append _ _ l1 l2

lemma dverse_map {κ α β : Type} [DecidableEq κ] (d : List (κ × List β))
    (l : List α) (g : α → κ × β) :
    dverse d (l.map g) = l.foldl (fun m p => dapp m (g p).1 (g p).2) d := by
  unfold dverse
  exact List.foldl_map g _ l d

lemma inverser_mapping_eq (mapPx : List ((ℤ × ℤ) × List (ℕ × ℚ))) (nb : ℕ) :
    inverser_mapping mapPx nb = dremplir (dverse [] (fluxTranspose mapPx)) nb := by
  unfold inverser_mapping fluxTranspose
  congr 1
  have cle : ∀ (d : List (ℕ × List (ℤ × ℤ × ℚ))),
      mapPx.foldl (fun acc e =>
        e.2.foldl (fun acc2 p => dapp acc2 p.1 (e.1.1, e.1.2, p.2)) acc) d =
      dverse d (mapPx.flatMap fun e => e.2.map fun p => (p.1, (e.1.1, e.1.2, p.2))) := by
    induction mapPx with
    | nil => intro d; rfl
    | cons e r ih =>
        intro d
        rw [List.foldl_cons, List.flatMap_cons, dverse_append, ih, dverse_map]
  exact cle []

lemma mem_plageInt (a b x : ℤ) : x ∈ plageInt a b ↔ a ≤ x ∧ x ≤ b := by
  unfold plageInt
  constructor
  · intro hx
    obtain ⟨n, hn, he⟩ := List.mem_map.mp hx
    have hlt : n < (b + 1 - a).toNat := List.mem_range.mp hn
    have hb : (n : ℤ) < b + 1 - a := Int.lt_toNat.mp hlt
    have h0 : (0 : ℤ) ≤ (n : ℤ) := Int.natCast_nonneg n
    subst he
    constructor <;> linarith
  · rintro ⟨h1, h2⟩
    apply List.mem_map.mpr
    refine ⟨(x - a).toNat, List.mem_range.mpr ?_, ?_⟩
    · rw [Int.toNat_lt_toNat (by omega)]
      omega
    · rw [Int.toNat_of_nonneg (by omega)]
      ring

lemma mem_fluxEnregs (points : ℕ → Point) (tris : List (ℕ × ℕ × ℕ))
    (gt : GeoTransform) (nbl ncol : ℕ) (r : (ℤ × ℤ) × ℕ × ℚ) :
    r ∈ fluxEnregs points tris gt nbl ncol ↔
      ∃ i tri, tris[i]? = some tri ∧
        r ∈ enregsTriangle gt nbl ncol i
          (points tri.1) (points tri.2.1) (points tri.2.2) := by
  unfold fluxEnregs
  simp only [List.mem_flatMap]
  constructor
  · rintro ⟨it, hit, hr⟩
    exact ⟨it.1, it.2, List.mem_enum_iff_getElem?.mp hit, hr⟩
  · rintro ⟨i, tri, hget, hr⟩
    exact ⟨(i, tri), List.mk_mem_enum_iff_getElem?.mpr hget, hr⟩

lemma mem_enregsTriangle (gt : GeoTransform) (nbl ncol : ℕ) (id : ℕ)
    (p0 p1 p2 : Point) (lig col : ℤ) (t : ℕ) (a : ℚ) :
    ((lig, col), (t, a)) ∈ enregsTriangle gt nbl ncol id p0 p1 p2 ↔
      t = id ∧ 0 < airePoly [p0, p1, p2] ∧
      lig ∈ plageInt (max ⌊(max p0.2 (max p1.2 p2.2) - gt.y0) / gt.dy⌋ 0)
            (min ⌊(min p0.2 (min p1.2 p2.2) - gt.y0) / gt.dy⌋ ((nbl : ℤ) - 1)) ∧
      col ∈ plageInt (max ⌊(min p0.1 (min p1.1 p2.1) - gt.x0) / gt.dx⌋ 0)
            (min ⌊(max p0.1 (max p1.1 p2.1) - gt.x0) / gt.dx⌋ ((ncol : ℤ) - 1)) ∧
      a = aireInterPixel p0 p1 p2 (gt.x0 + col * gt.dx) (gt.y0 + (lig + 1) * gt.dy)
            (gt.x0 + (col + 1) * gt.dx) (gt.y0 + lig * gt.dy) ∧
      0 < a := by
  unfold enregsTriangle
  by_cases hdeg : airePoly [p0, p1, p2] ≤ 0
  · rw [if_pos hdeg]
    constructor
    · intro hm
      exact absurd hm (List.not_mem_nil _)
    · rintro ⟨-, hpos, -⟩
      exact absurd hpos (not_lt.mpr hdeg)
  · rw [if_neg hdeg]
    simp only [List.mem_flatMap]
    constructor
    · rintro ⟨ligne, hlig, colonne, hcol, hm2⟩
      by_cases hpos : 0 < aireInterPixel p0 p1 p2
          (gt.x0 + colonne * gt.dx) (gt.y0 + (ligne + 1) * gt.dy)
          (gt.x0 + (colonne + 1) * gt.dx) (gt.y0 + ligne * gt.dy)
      · rw [if_pos hpos] at hm2
        simp only [List.mem_singleton, Prod.mk.injEq] at hm2
        obtain ⟨⟨hl, hc⟩, ht, ha⟩ := hm2
        subst hl; subst hc; subst ht; subst ha
        exact ⟨rfl, not_le.mp hdeg, hlig, hcol, rfl, hpos⟩
      · rw [if_neg hpos] at hm2
        exact absurd hm2 (List.not_mem_nil _)
    · rintro ⟨ht, -, hlig, hcol, ha, hpos⟩
      subst ht; subst ha
      refine ⟨lig, hlig, col, hcol, ?_⟩
      rw [if_pos hpos]
      exact List.mem_singleton.mpr rfl

lemma mem_dget_mapping_surface (points : ℕ → Point) (tris : List (ℕ × ℕ × ℕ))
    (gt : GeoTransform) (nbl ncol : ℕ) (key : ℤ × ℤ) (t : ℕ) (a : ℚ) :
    (t, a) ∈ dget (mapping_surface points tris gt nbl ncol) key ↔
      (key, (t, a)) ∈ fluxEnregs points tris gt nbl ncol := by
  unfold mapping_surface
  rw [dget_dverse]
  have hvide : dget ([] : List ((ℤ × ℤ) × List (ℕ × ℚ))) key = [] := rfl
  rw [hvide, List.nil_append]
  exact mem_choisir key _ (t, a)

/-- Claim C6, version corrigee : `xy_vers_pixel` tronque vers zero; pour
tout point situe a droite de `x_min` et au-dessous de `y_max` (quotients
positifs ou nuls, le cas d'un point dans la grille), la troncature coincide
avec la partie entiere et la cellule retournee est bien celle qui contient
le point. -/
theorem C6_indexation_grille (x y : ℚ) (gt : GeoTransform)
    (hdx : 0 < gt.dx) (hdy : gt.dy < 0) (hx : gt.x0 ≤ x) (hy : y ≤ gt.y0) :
    xy_vers_pixel x y gt = (⌊(y - gt.y0) / gt.dy⌋, ⌊(x - gt.x0) / gt.dx⌋) := by
  unfold xy_vers_pixel truncQ
  have h1 : (0 : ℚ) ≤ (y - gt.y0) / gt.dy := by
    rw [div_nonneg_iff]
    right
    constructor <;> linarith
  have h2 : (0 : ℚ) ≤ (x - gt.x0) / gt.dx := by
    rw [div_nonneg_iff]
    left
    constructor <;> linarith
  rw [if_pos h1, if_pos h2]

/-- Claim C10 : `lire_mh_ascii` retourne toujours `9999.0` comme valeur
nodata de reference quel que soit le `NODATA_value` declare du fichier, et
convertit en NaN toute cellule egale au nodata declare ainsi que toute
cellule egale a `9999.0` — une donnee legitime valant `9999.0` dans un
fichier au nodata declare different est donc silencieusement transformee
en absence de valeur. -/
theorem C10_nodata_coercition (entete : EnteteMH) (vals : List ℚ) :
    (lire_mh_ascii entete vals).2.2 = 9999 ∧
    ∀ i : ℕ, ((lire_mh_ascii entete vals).1)[i]? =
      (vals[i]?).map fun v =>
        if v = entete.nodata_value.getD 9999 ∨ v = 9999 then none else some v := by
  constructor
  · rfl
  · intro i
    unfold lire_mh_ascii NODATA_MH
    rw [List.getElem?_map]

/-- Claim C3 : `inverser_mapping` est totale sur `0..nb_triangles-1` (tout
id y possede une entree), un id absent de toutes les listes du mapping
direct est lie a la liste vide, et la liste d'un id `t` est exactement, en
ordre et en multiplicite, la liste des `(ligne, colonne, aire)` des
occurrences de `(t, aire)` sous la cle `(ligne, colonne)` du mapping
direct. -/
theorem C3_inversion_totale (mapPx : List ((ℤ × ℤ) × List (ℕ × ℚ))) (nb : ℕ) :
    (∀ id : ℕ, id < nb → (dchercher (inverser_mapping mapPx nb) id).isSome) ∧
    (∀ id : ℕ, dget (inverser_mapping mapPx nb) id =
      mapPx.flatMap fun e =>
        (e.2.filter fun p => p.1 = id).map fun p => (e.1.1, e.1.2, p.2)) ∧
    (∀ id : ℕ, id < nb → (∀ e ∈ mapPx, ∀ p ∈ e.2, p.1 ≠ id) →
      dchercher (inverser_mapping mapPx nb) id = some []) := by
  have hcle : ∀ id : ℕ, choisir id (fluxTranspose mapPx) =
      mapPx.flatMap fun e =>
        (e.2.filter fun p => p.1 = id).map fun p => (e.1.1, e.1.2, p.2) := by
    intro id
    unfold fluxTranspose
    induction mapPx with
    | nil => rfl
    | cons e r ih =>
        rw [List.flatMap_cons, choisir_append, ih, List.flatMap_cons]
        congr 1
        exact choisir_map_paire id e.2 (fun p => p.1) (fun p => (e.1.1, e.1.2, p.2))
  have hdget : ∀ id : ℕ, dget (inverser_mapping mapPx nb) id =
      choisir id (fluxTranspose mapPx) := by
    intro id
    rw [inverser_mapping_eq, dget_dremplir, dget_dverse]
    rfl
  refine ⟨?_, ?_, ?_⟩
  · intro id hid
    rw [inverser_mapping_eq, dchercher_dremplir, if_pos hid]
    rfl
  · intro id
    rw [hdget, hcle]
  · intro id hid habs
    have h1 : dchercher (inverser_mapping mapPx nb) id =
        some (dget (dverse [] (fluxTranspose mapPx)) id) := by
      rw [inverser_mapping_eq, dchercher_dremplir, if_pos hid]
    rw [h1]
    congr 1
    rw [dget_dverse]
    have h2 : choisir id (fluxTranspose mapPx) = [] := by
      rw [hcle]
      apply List.flatMap_eq_nil_iff.mpr
      intro e he
      apply List.map_eq_nil_iff.mpr
      apply List.filter_eq_nil_iff.mpr
      intro p hp
      simp only [decide_eq_true_eq]
      exact habs e he p hp
    rw [h2]
    rfl

lemma maj_autre (f : ℕ → Val) (k k2 : ℕ) (v : Val) (h : k2 ≠ k) :
    maj f k v k2 = f k2 := by
  simp [maj, h]

lemma majPix_autre (f : ℤ × ℤ → Val) (k k2 : ℤ × ℤ) (v : Val) (h : k2 ≠ k) :
    majPix f k v k2 = f k2 := by
  simp [majPix, h]

lemma foldl_maj_absent {κ β : Type} [DecidableEq κ]
    (step : (κ → Val) → (κ × β) → (κ → Val))
    (hautre : ∀ f e k, e.1 ≠ k → step f e k = f k)
    (l : List (κ × β)) (f : κ → Val) (k : κ)
    (h : k ∉ l.map Prod.fst) :
    l.foldl step f k = f k := by
  induction l generalizing f with
  | nil => rfl
  | cons e r ih =>
      have h1 : e.1 ≠ k := fun hh => h (by simp [← hh])
      have h2 : k ∉ r.map Prod.fst := fun hh => h (by simp [hh])
      rw [List.foldl_cons, ih _ h2, hautre f e k h1]

lemma foldl_maj_cle {κ β : Type} [DecidableEq κ]
    (step : (κ → Val) → (κ × β) → (κ → Val))
    (hautre : ∀ f e k, e.1 ≠ k → step f e k = f k)
    (hcongr : ∀ (f g : κ → Val) e, f e.1 = g e.1 → step f e e.1 = step g e e.1)
    (l : List (κ × β)) (f : κ → Val) (k : κ) (b : β)
    (hnd : (l.map Prod.fst).Nodup) (hmem : (k, b) ∈ l) :
    l.foldl step f k = step f (k, b) k := by
  induction l generalizing f with
  | nil => cases hmem
  | cons e r ih =>
      rw [List.map_cons, List.nodup_cons] at hnd
      rw [List.foldl_cons]
      rcases List.mem_cons.mp hmem with he | he
      · have he1 : e.1 = k := by rw [← he]
        have hknotin : k ∉ r.map Prod.fst := he1 ▸ hnd.1
        rw [foldl_maj_absent step hautre r _ k hknotin, ← he]
      · have hk : k ∈ r.map Prod.fst := List.mem_map.mpr ⟨(k, b), he, rfl⟩
        have h1 : e.1 ≠ k := fun hh => hnd.1 (hh ▸ hk)
        rw [ih _ hnd.2 he]
        exact hcongr _ _ (k, b) (hautre f e k h1)

lemma etapeMoyenne_autre (ras : ℤ → ℤ → Val) (pondere : Bool) (f : ℕ → Val)
    (e : ℕ × List (ℤ × ℤ × ℚ)) (k : ℕ) (h : e.1 ≠ k) :
    etapeMoyenne ras pondere f e k = f k := by
  unfold etapeMoyenne
  cases valeurMoyennePixels ras pondere e.2 with
  | none => rfl
  | some v => exact maj_autre f e.1 k (some v) (fun hh => h hh.symm)

lemma etapeMoyenne_congr (ras : ℤ → ℤ → Val) (pondere : Bool) (f g : ℕ → Val)
    (e : ℕ × List (ℤ × ℤ × ℚ)) (h : f e.1 = g e.1) :
    etapeMoyenne ras pondere f e e.1 = etapeMoyenne ras pondere g e e.1 := by
  unfold etapeMoyenne
  cases valeurMoyennePixels ras pondere e.2 with
  | none => exact h
  | some v => simp [maj]

lemma somme_pos_liste (l : List ℚ) (h : ∀ x ∈ l, 0 < x) (hne : l ≠ []) :
    0 < l.sum := by
  induction l with
  | nil => exact absurd rfl hne
  | cons x r ih =>
      rw [List.sum_cons]
      have h1 : 0 < x := h x (List.mem_cons_self x r)
      cases r with
      | nil => simpa using h1
      | cons y s =>
          have h2 : 0 < (y :: s).sum :=
            ih (fun z hz => h z (List.mem_cons_of_mem x hz)) (by simp)
          linarith

lemma somme_produits_constante (C : ℚ) (l : List (ℚ × ℚ))
    (h : ∀ pr ∈ l, pr.1 = C) :
    (l.map fun pr => pr.1 * pr.2).sum = C * (l.map fun pr => pr.2).sum := by
  induction l with
  | nil => simp
  | cons pr r ih =>
      rw [List.map_cons, List.sum_cons, List.map_cons, List.sum_cons,
        ih (fun x hx => h x (List.mem_cons_of_mem pr hx)),
        h pr (List.mem_cons_self pr r)]
      ring

lemma moyenne_pixels_cle (ras : ℤ → ℤ → Val)
    (triPx : List (ℕ × List (ℤ × ℤ × ℚ))) (pondere : Bool)
    (hnd : (triPx.map Prod.fst).Nodup)
    (id : ℕ) (pixels : List (ℤ × ℤ × ℚ)) (hmem : (id, pixels) ∈ triPx) :
    moyenne_pixels_par_triangle ras triPx pondere none id =
      (if (pixels.filterMap fun p => (ras p.1 p.2.1).map fun v => (v, p.2.2)) = []
       then none
       else if pondere then
         if 0 < ((pixels.filterMap fun p =>
             (ras p.1 p.2.1).map fun v => (v, p.2.2)).map fun pr => pr.2).sum then
           some (((pixels.filterMap fun p =>
               (ras p.1 p.2.1).map fun v => (v, p.2.2)).map fun pr => pr.1 * pr.2).sum /
             ((pixels.filterMap fun p =>
               (ras p.1 p.2.1).map fun v => (v, p.2.2)).map fun pr => pr.2).sum)
         else none
       else
         some (((pixels.filterMap fun p =>
             (ras p.1 p.2.1).map fun v => (v, p.2.2)).map fun pr => pr.1).sum /
           ((pixels.filterMap fun p =>
             (ras p.1 p.2.1).map fun v => (v, p.2.2)).length : ℚ))) := by
  have h0 : valeurMoyennePixels ras pondere pixels =
      (if (pixels.filterMap fun p => (ras p.1 p.2.1).map fun v => (v, p.2.2)) = []
       then none
       else if pondere then
         if 0 < ((pixels.filterMap fun p =>
             (ras p.1 p.2.1).map fun v => (v, p.2.2)).map fun pr => pr.2).sum then
           some (((pixels.filterMap fun p =>
               (ras p.1 p.2.1).map fun v => (v, p.2.2)).map fun pr => pr.1 * pr.2).sum /
             ((pixels.filterMap fun p =>
               (ras p.1 p.2.1).map fun v => (v, p.2.2)).map fun pr => pr.2).sum)
         else none
       else
         some (((pixels.filterMap fun p =>
             (ras p.1 p.2.1).map fun v => (v, p.2.2)).map fun pr => pr.1).sum /
           ((pixels.filterMap fun p =>
             (ras p.1 p.2.1).map fun v => (v, p.2.2)).length : ℚ))) := by
    unfold valeurMoyennePixels
    by_cases hp : pixels = []
    · subst hp
      rfl
    · rw [if_neg hp]
  rw [← h0]
  unfold moyenne_pixels_par_triangle
  rw [foldl_maj_cle (etapeMoyenne ras pondere) (etapeMoyenne_autre ras pondere)
    (etapeMoyenne_congr ras pondere) triPx _ id pixels hnd hmem]
  show etapeMoyenne ras pondere (fun _ => none) (id, pixels) id = _
  simp only [etapeMoyenne]
  cases hv : valeurMoyennePixels ras pondere pixels with
  | none => rfl
  | some v => simp [maj]

/-- Claim C1 : pour chaque id de triangle du mapping triangle vers pixels,
`moyenne_pixels_par_triangle` ecarte les paires dont la valeur raster est
non finie; en mode pondere le resultat vaut `Σ(valeur*aire)/Σ(aire)` sur
les paires restantes et n'est affecte que si `Σ(aire) > 0`; en mode simple
c'est la moyenne arithmetique des valeurs restantes; s'il ne reste aucune
paire, ou si en mode pondere la somme des poids restants est nulle, le
resultat du triangle est le marqueur non fini d'absence de valeur `none` —
jamais zero, jamais un repli sur la moyenne simple. -/
theorem C1_moyenne_pixels (ras : ℤ → ℤ → Val)
    (triPx : List (ℕ × List (ℤ × ℤ × ℚ))) (pondere : Bool)
    (hnd : (triPx.map Prod.fst).Nodup)
    (id : ℕ) (pixels : List (ℤ × ℤ × ℚ)) (hmem : (id, pixels) ∈ triPx) :
    moyenne_pixels_par_triangle ras triPx pondere none id =
      (if (pixels.filterMap fun p => (ras p.1 p.2.1).map fun v => (v, p.2.2)) = []
       then none
       else if pondere then
         if 0 < ((pixels.filterMap fun p =>
             (ras p.1 p.2.1).map fun v => (v, p.2.2)).map fun pr => pr.2).sum then
           some (((pixels.filterMap fun p =>
               (ras p.1 p.2.1).map fun v => (v, p.2.2)).map fun pr => pr.1 * pr.2).sum /
             ((pixels.filterMap fun p =>
               (ras p.1 p.2.1).map fun v => (v, p.2.2)).map fun pr => pr.2).sum)
         else none
       else
         some (((pixels.filterMap fun p =>
             (ras p.1 p.2.1).map fun v => (v, p.2.2)).map fun pr => pr.1).sum /
           ((pixels.filterMap fun p =>
             (ras p.1 p.2.1).map fun v => (v, p.2.2)).length : ℚ))) :=
  moyenne_pixels_cle ras triPx pondere hnd id pixels hmem

/-- Claim C7 : si toutes les aires du mapping sont strictement positives
(invariant de la correspondance) et si le raster vaut la constante `C` sur
toutes ses cellules finies, alors l'agregation ponderee par aire donne
exactement `C` a tout triangle ayant au moins une cellule associee de
valeur finie, et le marqueur non fini a tout triangle n'en ayant aucune. -/
theorem C7_agregation_constante (ras : ℤ → ℤ → Val)
    (triPx : List (ℕ × List (ℤ × ℤ × ℚ))) (C : ℚ)
    (hnd : (triPx.map Prod.fst).Nodup)
    (haire : ∀ e ∈ triPx, ∀ p ∈ e.2, 0 < p.2.2)
    (hconst : ∀ l c : ℤ, ras l c = none ∨ ras l c = some C)
    (id : ℕ) (pixels : List (ℤ × ℤ × ℚ)) (hmem : (id, pixels) ∈ triPx) :
    ((∃ p ∈ pixels, (ras p.1 p.2.1).isSome) →
      moyenne_pixels_par_triangle ras triPx true none id = some C) ∧
    ((∀ p ∈ pixels, ras p.1 p.2.1 = none) →
      moyenne_pixels_par_triangle ras triPx true none id = none) := by
  rw [moyenne_pixels_cle ras triPx true hnd id pixels hmem]
  set paires := pixels.filterMap fun p => (ras p.1 p.2.1).map fun v => (v, p.2.2)
    with hpaires
  constructor
  · rintro ⟨p, hp, hsome⟩
    obtain ⟨v, hv⟩ := Option.isSome_iff_exists.mp hsome
    have hvC : v = C := by
      rcases hconst p.1 p.2.1 with h | h
      · rw [h] at hv; exact absurd hv (by simp)
      · rw [h] at hv; exact (Option.some_injective _ hv).symm
    have hmempr : (C, p.2.2) ∈ paires := by
      rw [hpaires]
      exact List.mem_filterMap.mpr ⟨p, hp, by rw [hv, hvC]; rfl⟩
    have hne : paires ≠ [] := fun hh => by rw [hh] at hmempr; exact absurd hmempr (List.not_mem_nil _)
    have htoutC : ∀ pr ∈ paires, pr.1 = C := by
      intro pr hpr
      obtain ⟨q, hq, hqe⟩ := List.mem_filterMap.mp hpr
      rcases hconst q.1 q.2.1 with h | h
      · rw [h] at hqe
        simp at hqe
      · rw [h] at hqe
        simp only [Option.map_some'] at hqe
        have := Option.some_injective _ hqe
        rw [← this]
    have htoutpos : ∀ w ∈ paires.map fun pr => pr.2, 0 < w := by
      intro w hw
      obtain ⟨pr, hpr, hpre⟩ := List.mem_map.mp hw
      obtain ⟨q, hq, hqe⟩ := List.mem_filterMap.mp hpr
      have hq2 : pr.2 = q.2.2 := by
        rcases hconst q.1 q.2.1 with h | h
        · rw [h] at hqe
          simp at hqe
        · rw [h] at hqe
          simp only [Option.map_some'] at hqe
          rw [← Option.some_injective _ hqe]
      rw [← hpre, hq2]
      exact haire (id, pixels) hmem q hq
    have hsumpos : 0 < (paires.map fun pr => pr.2).sum := by
      apply somme_pos_liste _ htoutpos
      intro hh
      exact hne (List.map_eq_nil_iff.mp hh)
    rw [if_neg hne, if_pos rfl, if_pos hsumpos,
      somme_produits_constante C paires htoutC,
      mul_div_assoc, div_self (ne_of_gt hsumpos), mul_one]
  · intro htout
    have hvide : paires = [] := by
      rw [hpaires]
      apply List.filterMap_eq_nil_iff.mpr
      intro p hp
      rw [htout p hp]
      rfl
    rw [if_pos hvide]

lemma etapeSmMh_autre (valTri : ℕ → Val) (pondere : Bool) (f : ℤ × ℤ → Val)
    (e : (ℤ × ℤ) × List (ℕ × ℚ)) (k : ℤ × ℤ) (h : e.1 ≠ k) :
    etapeSmMh valTri pondere f e k = f k := by
  unfold etapeSmMh
  cases valeurSmMh valTri pondere e.2 with
  | none => rfl
  | some v => exact majPix_autre f e.1 k v (fun hh => h hh.symm)

lemma etapeSmMh_congr (valTri : ℕ → Val) (pondere : Bool) (f g : ℤ × ℤ → Val)
    (e : (ℤ × ℤ) × List (ℕ × ℚ)) (h : f e.1 = g e.1) :
    etapeSmMh valTri pondere f e e.1 = etapeSmMh valTri pondere g e e.1 := by
  unfold etapeSmMh
  cases valeurSmMh valTri pondere e.2 with
  | none => exact h
  | some v => simp [majPix]

lemma etapeProjSurf_autre (valeurs : ℕ → Val) (f : ℤ × ℤ → Val)
    (e : (ℤ × ℤ) × List (ℕ × ℚ)) (k : ℤ × ℤ) (h : e.1 ≠ k) :
    etapeProjSurf valeurs f e k = f k := by
  unfold etapeProjSurf
  cases valeurProjSurf valeurs e.2 with
  | none => rfl
  | some v => exact majPix_autre f e.1 k v (fun hh => h hh.symm)

lemma etapeProjSurf_congr (valeurs : ℕ → Val) (f g : ℤ × ℤ → Val)
    (e : (ℤ × ℤ) × List (ℕ × ℚ)) (h : f e.1 = g e.1) :
    etapeProjSurf valeurs f e e.1 = etapeProjSurf valeurs g e e.1 := by
  unfold etapeProjSurf
  cases valeurProjSurf valeurs e.2 with
  | none => exact h
  | some v => simp [majPix]

/-- Claim C2, contre-exemple : pour le pixel `(0, 0)` couvert par le
triangle 0 de valeur `5.0` et le triangle 1 de valeur NaN (aires egales),
la revendication annonce en mode simple la moyenne des paires restantes,
soit `5.0`; le code calcule `np.mean([5.0, nan])` sans exclure la valeur
non finie et le pixel vaut NaN. -/
theorem C2_contre_exemple :
    sm_vers_mh_raster [((0, 0), [(0, 1), (1, 1)])]
      (fun i => if i = 0 then some 5 else none) false (0, 0) = none ∧
    (none : Val) ≠ some (5 : ℚ) := by
  constructor
  · rfl
  · intro h
    exact Option.noConfusion h

/-- Claim C2, version corrigee : sur chaque cle du mapping pixel vers
triangles (cles sans doublon), en mode pondere `sm_vers_mh_raster` exclut
les paires d'aire non positive ou de valeur non finie puis applique
`Σ(valeur*aire)/Σ(aire)` garde par `Σ(aire) > 0` (sinon marqueur
d'absence); en mode simple AUCUNE exclusion n'est faite : le pixel recoit
la moyenne numpy de toutes les valeurs, non finie des qu'une valeur l'est;
une cle absente du mapping garde le marqueur d'absence; et
`projette_triangles_surface` applique la regle ponderee en excluant
seulement les valeurs non finies (sans filtre d'aire). -/
theorem C2_sm_vers_mh (mapPx : List ((ℤ × ℤ) × List (ℕ × ℚ)))
    (valTri : ℕ → Val) (pondere : Bool)
    (hnd : (mapPx.map Prod.fst).Nodup) :
    (∀ key lst, (key, lst) ∈ mapPx →
      sm_vers_mh_raster mapPx valTri pondere key =
        (if lst = [] then none
         else if pondere then
           (if 0 < ((lst.filterMap fun p => if p.2 ≤ 0 then none
                 else (valTri p.1).map fun v => (v, p.2)).map fun pr => pr.2).sum
            then some (((lst.filterMap fun p => if p.2 ≤ 0 then none
                 else (valTri p.1).map fun v => (v, p.2)).map
                   fun pr => pr.1 * pr.2).sum /
               ((lst.filterMap fun p => if p.2 ≤ 0 then none
                 else (valTri p.1).map fun v => (v, p.2)).map fun pr => pr.2).sum)
            else none)
         else npMean (lst.map fun p => valTri p.1))) ∧
    (∀ key, key ∉ mapPx.map Prod.fst →
      sm_vers_mh_raster mapPx valTri pondere key = none) ∧
    (∀ key liste, (key, liste) ∈ mapPx →
      projette_triangles_surface valTri mapPx key =
        (if 0 < ((liste.filterMap fun p =>
              (valTri p.1).map fun v => (v, p.2)).map fun pr => pr.2).sum
         then some (((liste.filterMap fun p =>
              (valTri p.1).map fun v => (v, p.2)).map fun pr => pr.1 * pr.2).sum /
            ((liste.filterMap fun p =>
              (valTri p.1).map fun v => (v, p.2)).map fun pr => pr.2).sum)
         else none)) := by
  refine ⟨?_, ?_, ?_⟩
  · intro key lst hmem
    unfold sm_vers_mh_raster
    rw [foldl_maj_cle (etapeSmMh valTri pondere) (etapeSmMh_autre valTri pondere)
      (etapeSmMh_congr valTri pondere) mapPx _ key lst hnd hmem]
    show etapeSmMh valTri pondere (fun _ => none) (key, lst) key = _
    have h0 : etapeSmMh valTri pondere (fun _ => none) (key, lst) key =
        (match valeurSmMh valTri pondere lst with
         | some v => v
         | none => none) := by
      simp only [etapeSmMh]
      cases valeurSmMh valTri pondere lst with
      | none => rfl
      | some v => simp [majPix]
    rw [h0]
    by_cases hl : lst = []
    · subst hl
      rfl
    · rw [if_neg hl]
      unfold valeurSmMh
      rw [if_neg hl]
      cases pondere with
      | false =>
          have hvals : (lst.map fun p => valTri p.1) ≠ [] := by
            intro hh
            exact hl (List.map_eq_nil_iff.mp hh)
          rw [if_pos rfl, if_neg hvals,
            if_neg (by simp : ¬ ((false : Bool) = true))]
      | true =>
          rw [if_neg (by simp : ¬ ((true : Bool) = false)), if_pos rfl]
          by_cases hden : 0 < ((lst.filterMap fun p => if p.2 ≤ 0 then none
              else (valTri p.1).map fun v => (v, p.2)).map fun pr => pr.2).sum
          · rw [if_pos hden, if_pos hden]
          · rw [if_neg hden, if_neg hden]
  · intro key habs
    unfold sm_vers_mh_raster
    exact foldl_maj_absent (etapeSmMh valTri pondere)
      (etapeSmMh_autre valTri pondere) mapPx _ key habs
  · intro key liste hmem
    unfold projette_triangles_surface
    rw [foldl_maj_cle (etapeProjSurf valTri) (etapeProjSurf_autre valTri)
      (etapeProjSurf_congr valTri) mapPx _ key liste hnd hmem]
    show etapeProjSurf valTri (fun _ => none) (key, liste) key = _
    have h0 : etapeProjSurf valTri (fun _ => none) (key, liste) key =
        (match valeurProjSurf valTri liste with
         | some v => v
         | none => none) := by
      simp only [etapeProjSurf]
      cases valeurProjSurf valTri liste with
      | none => rfl
      | some v => simp [majPix]
    rw [h0]
    unfold valeurProjSurf
    by_cases hden : 0 < ((liste.filterMap fun p =>
        (valTri p.1).map fun v => (v, p.2)).map fun pr => pr.2).sum
    · rw [if_pos hden, if_pos hden]
    · rw [if_neg hden, if_neg hden]

lemma lireBoucle_valeurs (abloc reste2 : List LigneVal) (n : ℕ)
    (hlen : abloc.length = n) :
    lireBoucle (abloc ++ reste2) n =
      abloc.map premierFloat ++ lireBoucle reste2 0 := by
  induction abloc generalizing n with
  | nil =>
      subst hlen
      rfl
  | cons lg r ih =>
      subst hlen
      rw [List.cons_append, List.length_cons]
      rw [show lireBoucle (lg :: (r ++ reste2)) (r.length + 1) =
        premierFloat lg :: lireBoucle (r ++ reste2) r.length from rfl]
      rw [ih r.length rfl, List.map_cons, List.cons_append]

lemma blocsVal_lire (tailles : List ℕ) (i : ℕ) (vals : List Val)
    (hlen : vals.length = tailles.sum) :
    lireBoucle (blocsVal tailles i vals) 0 =
      vals.map fun v => round2 (v.getD 0) := by
  induction tailles generalizing i vals with
  | nil =>
      have hv : vals = [] := List.eq_nil_of_length_eq_zero (by simpa using hlen)
      subst hv
      rfl
  | cons nb reste ih =>
      have hnb : nb ≤ vals.length := by
        rw [hlen, List.sum_cons]
        omega
      have hA : ((vals.take nb).map
          fun v => LigneVal.valeur (round2 (v.getD 0))).length = nb := by
        rw [List.length_map, List.length_take]
        omega
      rw [blocsVal, List.cons_append]
      rw [show lireBoucle (LigneVal.fac i nb ::
          (((vals.take nb).map fun v => LigneVal.valeur (round2 (v.getD 0))) ++
            blocsVal reste (i + 1) (vals.drop nb))) 0 =
        lireBoucle (((vals.take nb).map fun v => LigneVal.valeur (round2 (v.getD 0))) ++
            blocsVal reste (i + 1) (vals.drop nb)) nb from rfl]
      rw [lireBoucle_valeurs _ _ nb hA, List.map_map]
      have hcomp : premierFloat ∘ (fun v : Val => LigneVal.valeur (round2 (v.getD 0))) =
          fun v : Val => round2 (v.getD 0) := by
        funext v
        rfl
      rw [hcomp, ih (i + 1) (vals.drop nb)
        (by rw [List.length_drop, hlen, List.sum_cons]; omega)]
      rw [← List.map_append, List.take_append_drop]

/-- Claim C8, version corrigee : ecrire un champ scalaire par `ecrire_val`
puis le relire par `lire_val` restitue les valeurs dans l'ordre des
facettes, mais chaque valeur est arrondie a deux decimales (formatage
`"%.2f"`, plus proche multiple de `1/100`, egalite vers le pair) et chaque
valeur non finie est relue comme `0.0`. -/
theorem C8_aller_retour (tailles : List ℕ) (vals : List Val)
    (hlen : vals.length = tailles.sum) :
    lire_val (ecrire_val tailles vals) =
      vals.map fun v => round2 (v.getD 0) := by
  unfold ecrire_val lire_val
  rw [if_neg (by simp)]
  rw [List.drop_one, List.tail_cons]
  exact blocsVal_lire tailles 1 vals hlen

lemma mapping_barycentre_invariant (points : ℕ → Point) (gt : GeoTransform)
    (nbl ncol : ℕ) (l : List (ℕ × (ℕ × ℕ × ℕ))) (m : List ((ℤ × ℤ) × List ℕ))
    (hm : ∀ key lst, dchercher m key = some lst →
      0 ≤ key.1 ∧ key.1 < (nbl : ℤ) ∧ 0 ≤ key.2 ∧ key.2 < (ncol : ℤ)) :
    ∀ key lst, dchercher (l.foldl (fun m2 it =>
      if 0 ≤ (xy_vers_pixel
            (barycentreXY (points it.2.1) (points it.2.2.1) (points it.2.2.2)).1
            (barycentreXY (points it.2.1) (points it.2.2.1) (points it.2.2.2)).2 gt).1 ∧
          (xy_vers_pixel
            (barycentreXY (points it.2.1) (points it.2.2.1) (points it.2.2.2)).1
            (barycentreXY (points it.2.1) (points it.2.2.1) (points it.2.2.2)).2 gt).1 <
              (nbl : ℤ) ∧
          0 ≤ (xy_vers_pixel
            (barycentreXY (points it.2.1) (points it.2.2.1) (points it.2.2.2)).1
            (barycentreXY (points it.2.1) (points it.2.2.1) (points it.2.2.2)).2 gt).2 ∧
          (xy_vers_pixel
            (barycentreXY (points it.2.1) (points it.2.2.1) (points it.2.2.2)).1
            (barycentreXY (points it.2.1) (points it.2.2.1) (points it.2.2.2)).2 gt).2 <
              (ncol : ℤ) then
        dapp m2 (xy_vers_pixel
            (barycentreXY (points it.2.1) (points it.2.2.1) (points it.2.2.2)).1
            (barycentreXY (points it.2.1) (points it.2.2.1) (points it.2.2.2)).2 gt) it.1
      else m2) m) key = some lst →
      0 ≤ key.1 ∧ key.1 < (nbl : ℤ) ∧ 0 ≤ key.2 ∧ key.2 < (ncol : ℤ) := by
  induction l generalizing m with
  | nil => exact hm
  | cons it r ih =>
      rw [List.foldl_cons]
      apply ih
      intro key lst h
      split at h
      · rename_i hguard
        rw [dchercher_dapp] at h
        by_cases hk : key = xy_vers_pixel
            (barycentreXY (points it.2.1) (points it.2.2.1) (points it.2.2.2)).1
            (barycentreXY (points it.2.1) (points it.2.2.1) (points it.2.2.2)).2 gt
        · rw [hk]
          exact hguard
        · rw [if_neg hk] at h
          exact hm key lst h
      · exact hm key lst h

/-- Claim C9 : toute cle `(ligne, colonne)` du dictionnaire produit par
`mapping_surface`, et toute cle de celui produit par `mapping_barycentre`,
verifie `0 ≤ ligne < nb_lignes` et `0 ≤ colonne < nb_colonnes` : les
agregations en aval n'indexent jamais le raster hors bornes. -/
theorem C9_bornes_indices (points : ℕ → Point) (tris : List (ℕ × ℕ × ℕ))
    (gt : GeoTransform) (nbl ncol : ℕ) :
    (∀ key lst, dchercher (mapping_surface points tris gt nbl ncol) key = some lst →
      0 ≤ key.1 ∧ key.1 < (nbl : ℤ) ∧ 0 ≤ key.2 ∧ key.2 < (ncol : ℤ)) ∧
    (∀ key lst, dchercher (mapping_barycentre points tris gt nbl ncol) key = some lst →
      0 ≤ key.1 ∧ key.1 < (nbl : ℤ) ∧ 0 ≤ key.2 ∧ key.2 < (ncol : ℤ)) := by
  constructor
  · intro key lst h
    unfold mapping_surface at h
    rcases dchercher_dverse_some [] (fluxEnregs points tris gt nbl ncol) key lst h
      with h2 | h2
    · exact absurd h2 (by simp [dchercher])
    · obtain ⟨r, hr, hre⟩ := List.mem_map.mp h2
      obtain ⟨i, tri, hget, hmem⟩ :=
        (mem_fluxEnregs points tris gt nbl ncol r).mp hr
      have hmem2 : ((r.1.1, r.1.2), (r.2.1, r.2.2)) ∈ enregsTriangle gt nbl ncol i
          (points tri.1) (points tri.2.1) (points tri.2.2) := hmem
      obtain ⟨-, -, hlig, hcol, -, -⟩ :=
        (mem_enregsTriangle gt nbl ncol i (points tri.1) (points tri.2.1)
          (points tri.2.2) r.1.1 r.1.2 r.2.1 r.2.2).mp hmem2
      rw [mem_plageInt] at hlig hcol
      subst hre
      have ha : (0 : ℤ) ≤ r.1.1 := le_trans (le_max_right _ 0) hlig.1
      have hb : r.1.1 ≤ (nbl : ℤ) - 1 := le_trans hlig.2 (min_le_right _ _)
      have hc : (0 : ℤ) ≤ r.1.2 := le_trans (le_max_right _ 0) hcol.1
      have hd : r.1.2 ≤ (ncol : ℤ) - 1 := le_trans hcol.2 (min_le_right _ _)
      exact ⟨ha, by omega, hc, by omega⟩
  · intro key lst h
    unfold mapping_barycentre at h
    exact mapping_barycentre_invariant points gt nbl ncol tris.enum []
      (fun key2 lst2 h2 => Option.noConfusion h2) key lst h

/-- Claim C4, version corrigee : `mapping_surface` enregistre une entree
`(triangle, aire)` sous la cle `(ligne, colonne)` exactement quand le
triangle est non degenere, la cellule est dans la fenetre candidate de la
boite englobante ecretee, et l'aire exacte d'intersection est strictement
positive (`aire <= 0` est ecarte) : le seuil est la constante zero codee en
dur, pas un epsilon reglable. -/
theorem C4_seuil_zero (points : ℕ → Point) (tris : List (ℕ × ℕ × ℕ))
    (gt : GeoTransform) (nbl ncol : ℕ) (key : ℤ × ℤ) (t : ℕ) (a : ℚ) :
    (t, a) ∈ dget (mapping_surface points tris gt nbl ncol) key ↔
      ∃ tri, tris[t]? = some tri ∧
        0 < airePoly [points tri.1, points tri.2.1, points tri.2.2] ∧
        key.1 ∈ plageInt
          (max ⌊(max (points tri.1).2 (max (points tri.2.1).2 (points tri.2.2).2) -
            gt.y0) / gt.dy⌋ 0)
          (min ⌊(min (points tri.1).2 (min (points tri.2.1).2 (points tri.2.2).2) -
            gt.y0) / gt.dy⌋ ((nbl : ℤ) - 1)) ∧
        key.2 ∈ plageInt
          (max ⌊(min (points tri.1).1 (min (points tri.2.1).1 (points tri.2.2).1) -
            gt.x0) / gt.dx⌋ 0)
          (min ⌊(max (points tri.1).1 (max (points tri.2.1).1 (points tri.2.2).1) -
            gt.x0) / gt.dx⌋ ((ncol : ℤ) - 1)) ∧
        a = aireInterPixel (points tri.1) (points tri.2.1) (points tri.2.2)
          (gt.x0 + key.2 * gt.dx) (gt.y0 + (key.1 + 1) * gt.dy)
          (gt.x0 + (key.2 + 1) * gt.dx) (gt.y0 + key.1 * gt.dy) ∧
        0 < a := by
  rw [mem_dget_mapping_surface, mem_fluxEnregs]
  constructor
  · rintro ⟨i, tri, hget, hmem⟩
    have hmem2 : ((key.1, key.2), (t, a)) ∈ enregsTriangle gt nbl ncol i
        (points tri.1) (points tri.2.1) (points tri.2.2) := hmem
    obtain ⟨hti, hdeg, hlig, hcol, ha, hpos⟩ :=
      (mem_enregsTriangle gt nbl ncol i (points tri.1) (points tri.2.1)
        (points tri.2.2) key.1 key.2 t a).mp hmem2
    subst hti
    exact ⟨tri, hget, hdeg, hlig, hcol, ha, hpos⟩
  · rintro ⟨tri, hget, hdeg, hlig, hcol, ha, hpos⟩
    refine ⟨t, tri, hget, ?_⟩
    have hmem2 : ((key.1, key.2), (t, a)) ∈ enregsTriangle gt nbl ncol t
        (points tri.1) (points tri.2.1) (points tri.2.2) :=
      (mem_enregsTriangle gt nbl ncol t (points tri.1) (points tri.2.1)
        (points tri.2.2) key.1 key.2 t a).mpr ⟨rfl, hdeg, hlig, hcol, ha, hpos⟩
    exact hmem2

lemma fermeParSegment_demiPlan (a b c : ℚ) :
    fermeParSegment {p : Point | fval a b c p ≤ 0} := by
  intro p hp q hq t ht0 ht1
  simp only [Set.mem_setOf_eq, fval] at hp hq ⊢
  have cle : a * (p.1 + t * (q.1 - p.1)) + b * (p.2 + t * (q.2 - p.2)) - c =
      (1 - t) * (a * p.1 + b * p.2 - c) + t * (a * q.1 + b * q.2 - c) := by
    ring
  rw [cle]
  have h1 : (1 - t) * (a * p.1 + b * p.2 - c) ≤ 0 := by nlinarith
  have h2 : t * (a * q.1 + b * q.2 - c) ≤ 0 := by nlinarith
  linarith

lemma fermeParSegment_dansTri (p0 p1 p2 : Point) :
    fermeParSegment {q : Point | dansTri p0 p1 p2 q} := by
  rintro p ⟨a1, b1, c1, ha1, hb1, hc1, hs1, hp⟩
    q ⟨a2, b2, c2, ha2, hb2, hc2, hs2, hq⟩ t ht0 ht1
  refine ⟨(1 - t) * a1 + t * a2, (1 - t) * b1 + t * b2, (1 - t) * c1 + t * c2,
    ?_, ?_, ?_, ?_, ?_⟩
  · have := mul_nonneg (by linarith : (0 : ℚ) ≤ 1 - t) ha1
    have := mul_nonneg ht0 ha2
    linarith
  · have := mul_nonneg (by linarith : (0 : ℚ) ≤ 1 - t) hb1
    have := mul_nonneg ht0 hb2
    linarith
  · have := mul_nonneg (by linarith : (0 : ℚ) ≤ 1 - t) hc1
    have := mul_nonneg ht0 hc2
    linarith
  · linear_combination (1 - t) * hs1 + t * hs2
  · subst hp
    subst hq
    rw [Prod.ext_iff]
    constructor
    · show _ + t * (_ - _) = _
      ring
    · show _ + t * (_ - _) = _
      ring

lemma clipDemiPlan_sous (S : Set Point) (hS : fermeParSegment S) (a b c : ℚ)
    (poly : List Point) (hpoly : ∀ v ∈ poly, v ∈ S) :
    ∀ w ∈ clipDemiPlan a b c poly, w ∈ S := by
  intro w hw
  unfold clipDemiPlan at hw
  obtain ⟨se, hse, hwse⟩ := List.mem_flatMap.mp hw
  have hse2 : (se.1, se.2) ∈ poly.zip (poly.rotate 1) := hse
  have hs1 : se.1 ∈ poly := (List.of_mem_zip hse2).1
  have hs2 : se.2 ∈ poly := List.mem_rotate.mp (List.of_mem_zip hse2).2
  have hS1 : se.1 ∈ S := hpoly se.1 hs1
  have hS2 : se.2 ∈ S := hpoly se.2 hs2
  have hinter : ¬ fval a b c se.1 ≤ 0 ∧ fval a b c se.2 ≤ 0 ∨
      fval a b c se.1 ≤ 0 ∧ ¬ fval a b c se.2 ≤ 0 →
      interSeg a b c se.1 se.2 ∈ S := by
    rintro (⟨h1, h2⟩ | ⟨h1, h2⟩)
    · have hu : 0 < fval a b c se.1 := not_le.mp h1
      have hden : fval a b c se.2 - fval a b c se.1 < 0 := by linarith
      have ht0 : 0 ≤ (0 - fval a b c se.1) /
          (fval a b c se.2 - fval a b c se.1) := by
        rw [div_nonneg_iff]
        right
        constructor <;> linarith
      have ht1 : (0 - fval a b c se.1) /
          (fval a b c se.2 - fval a b c se.1) ≤ 1 := by
        rw [div_le_one_of_neg hden]
        linarith
      exact hS se.1 hS1 se.2 hS2 _ ht0 ht1
    · have hv : 0 < fval a b c se.2 := not_le.mp h2
      have hden : 0 < fval a b c se.2 - fval a b c se.1 := by linarith
      have ht0 : 0 ≤ (0 - fval a b c se.1) /
          (fval a b c se.2 - fval a b c se.1) := by
        rw [div_nonneg_iff]
        left
        constructor <;> linarith
      have ht1 : (0 - fval a b c se.1) /
          (fval a b c se.2 - fval a b c se.1) ≤ 1 := by
        rw [div_le_one hden]
        linarith
      exact hS se.1 hS1 se.2 hS2 _ ht0 ht1
  by_cases h2 : fval a b c se.2 ≤ 0
  · rw [if_pos h2] at hwse
    by_cases h1 : fval a b c se.1 ≤ 0
    · rw [if_pos h1] at hwse
      rw [List.mem_singleton.mp hwse]
      exact hS2
    · rw [if_neg h1] at hwse
      rcases List.mem_cons.mp hwse with hw2 | hw2
      · rw [hw2]
        exact hinter (Or.inl ⟨h1, h2⟩)
      · rw [List.mem_singleton.mp hw2]
        exact hS2
  · rw [if_neg h2] at hwse
    by_cases h1 : fval a b c se.1 ≤ 0
    · rw [if_pos h1] at hwse
      rw [List.mem_singleton.mp hwse]
      exact hinter (Or.inr ⟨h1, h2⟩)
    · rw [if_neg h1] at hwse
      exact absurd hwse (List.not_mem_nil w)

lemma clipDemiPlan_dans (a b c : ℚ) (poly : List Point) :
    ∀ w ∈ clipDemiPlan a b c poly, fval a b c w ≤ 0 := by
  intro w hw
  unfold clipDemiPlan at hw
  obtain ⟨se, hse, hwse⟩ := List.mem_flatMap.mp hw
  have hinter : fval a b c se.1 ≠ fval a b c se.2 →
      fval a b c (interSeg a b c se.1 se.2) ≤ 0 := by
    intro hne
    have hne2 : fval a b c se.2 - fval a b c se.1 ≠ 0 := by
      intro hh
      exact hne (by linarith)
    have cle : fval a b c (interSeg a b c se.1 se.2) =
        fval a b c se.1 + (0 - fval a b c se.1) /
          (fval a b c se.2 - fval a b c se.1) *
          (fval a b c se.2 - fval a b c se.1) := by
      unfold interSeg fval
      ring
    rw [cle, div_mul_cancel₀ _ hne2]
    linarith
  by_cases h2 : fval a b c se.2 ≤ 0
  · rw [if_pos h2] at hwse
    by_cases h1 : fval a b c se.1 ≤ 0
    · rw [if_pos h1] at hwse
      rw [List.mem_singleton.mp hwse]
      exact h2
    · rw [if_neg h1] at hwse
      rcases List.mem_cons.mp hwse with hw2 | hw2
      · rw [hw2]
        exact hinter (by intro hh; exact h1 (hh ▸ h2))
      · rw [List.mem_singleton.mp hw2]
        exact h2
  · rw [if_neg h2] at hwse
    by_cases h1 : fval a b c se.1 ≤ 0
    · rw [if_pos h1] at hwse
      rw [List.mem_singleton.mp hwse]
      exact hinter (by intro hh; exact h2 (hh ▸ h1))
    · rw [if_neg h1] at hwse
      exact absurd hwse (List.not_mem_nil w)

lemma clipRect_mem (p0 p1 p2 : Point) (xmin ymin xmax ymax : ℚ) :
    ∀ w ∈ clipRect [p0, p1, p2] xmin ymin xmax ymax,
      dansTri p0 p1 p2 w ∧ xmin ≤ w.1 ∧ w.1 ≤ xmax ∧ ymin ≤ w.2 ∧ w.2 ≤ ymax := by
  have hTri : fermeParSegment {q : Point | dansTri p0 p1 p2 q} :=
    fermeParSegment_dansTri p0 p1 p2
  have hsommets : ∀ v ∈ [p0, p1, p2], v ∈ {q : Point | dansTri p0 p1 p2 q} := by
    intro v hv
    rcases List.mem_cons.mp hv with h | hv2
    · exact ⟨1, 0, 0, zero_le_one, le_refl 0, le_refl 0, by ring,
        by rw [h, Prod.ext_iff]; constructor <;> (show _ = _; ring)⟩
    · rcases List.mem_cons.mp hv2 with h | hv3
      · exact ⟨0, 1, 0, le_refl 0, zero_le_one, le_refl 0, by ring,
        by rw [h, Prod.ext_iff]; constructor <;> (show _ = _; ring)⟩
      · rw [List.mem_singleton.mp hv3]
        exact ⟨0, 0, 1, le_refl 0, le_refl 0, zero_le_one, by ring,
          by rw [Prod.ext_iff]; constructor <;> (show _ = _; ring)⟩
  intro w hw
  unfold clipRect at hw
  have e1 : ∀ v ∈ clipDemiPlan (-1) 0 (-xmin) [p0, p1, p2],
      v ∈ {q : Point | dansTri p0 p1 p2 q} ∧ xmin ≤ v.1 := by
    intro v hv
    refine ⟨clipDemiPlan_sous _ hTri _ _ _ _ hsommets v hv, ?_⟩
    have := clipDemiPlan_dans (-1) 0 (-xmin) [p0, p1, p2] v hv
    unfold fval at this
    linarith
  have e2 : ∀ v ∈ clipDemiPlan 1 0 xmax (clipDemiPlan (-1) 0 (-xmin) [p0, p1, p2]),
      v ∈ {q : Point | dansTri p0 p1 p2 q} ∧ xmin ≤ v.1 ∧ v.1 ≤ xmax := by
    intro v hv
    refine ⟨clipDemiPlan_sous _ hTri _ _ _ _ (fun u hu => (e1 u hu).1) v hv,
      clipDemiPlan_sous {q : Point | xmin ≤ q.1} ?_ _ _ _ _
        (fun u hu => (e1 u hu).2) v hv, ?_⟩
    · intro p hp q hq t ht0 ht1
      simp only [Set.mem_setOf_eq] at hp hq ⊢
      nlinarith [mul_nonneg ht0 (by linarith : (0 : ℚ) ≤ q.1 - xmin),
        mul_nonneg (by linarith : (0 : ℚ) ≤ 1 - t) (by linarith : (0 : ℚ) ≤ p.1 - xmin)]
    · have := clipDemiPlan_dans 1 0 xmax _ v hv
      unfold fval at this
      linarith
  have e3 : ∀ v ∈ clipDemiPlan 0 (-1) (-ymin)
      (clipDemiPlan 1 0 xmax (clipDemiPlan (-1) 0 (-xmin) [p0, p1, p2])),
      v ∈ {q : Point | dansTri p0 p1 p2 q} ∧ xmin ≤ v.1 ∧ v.1 ≤ xmax ∧ ymin ≤ v.2 := by
    intro v hv
    refine ⟨clipDemiPlan_sous _ hTri _ _ _ _ (fun u hu => (e2 u hu).1) v hv,
      clipDemiPlan_sous {q : Point | xmin ≤ q.1} ?_ _ _ _ _
        (fun u hu => (e2 u hu).2.1) v hv,
      clipDemiPlan_sous {q : Point | q.1 ≤ xmax} ?_ _ _ _ _
        (fun u hu => (e2 u hu).2.2) v hv, ?_⟩
    · intro p hp q hq t ht0 ht1
      simp only [Set.mem_setOf_eq] at hp hq ⊢
      nlinarith [mul_nonneg ht0 (by linarith : (0 : ℚ) ≤ q.1 - xmin),
        mul_nonneg (by linarith : (0 : ℚ) ≤ 1 - t) (by linarith : (0 : ℚ) ≤ p.1 - xmin)]
    · intro p hp q hq t ht0 ht1
      simp only [Set.mem_setOf_eq] at hp hq ⊢
      nlinarith [mul_nonneg ht0 (by linarith : (0 : ℚ) ≤ xmax - q.1),
        mul_nonneg (by linarith : (0 : ℚ) ≤ 1 - t) (by linarith : (0 : ℚ) ≤ xmax - p.1)]
    · have := clipDemiPlan_dans 0 (-1) (-ymin) _ v hv
      unfold fval at this
      linarith
  refine ⟨(clipDemiPlan_sous _ hTri _ _ _ _ (fun u hu => (e3 u hu).1) w hw : _),
    clipDemiPlan_sous {q : Point | xmin ≤ q.1} ?_ _ _ _ _
      (fun u hu => (e3 u hu).2.1) w hw,
    clipDemiPlan_sous {q : Point | q.1 ≤ xmax} ?_ _ _ _ _
      (fun u hu => (e3 u hu).2.2.1) w hw,
    clipDemiPlan_sous {q : Point | ymin ≤ q.2} ?_ _ _ _ _
      (fun u hu => (e3 u hu).2.2.2) w hw, ?_⟩
  · intro p hp q hq t ht0 ht1
    simp only [Set.mem_setOf_eq] at hp hq ⊢
    nlinarith [mul_nonneg ht0 (by linarith : (0 : ℚ) ≤ q.1 - xmin),
      mul_nonneg (by linarith : (0 : ℚ) ≤ 1 - t) (by linarith : (0 : ℚ) ≤ p.1 - xmin)]
  · intro p hp q hq t ht0 ht1
    simp only [Set.mem_setOf_eq] at hp hq ⊢
    nlinarith [mul_nonneg ht0 (by linarith : (0 : ℚ) ≤ xmax - q.1),
      mul_nonneg (by linarith : (0 : ℚ) ≤ 1 - t) (by linarith : (0 : ℚ) ≤ xmax - p.1)]
  · intro p hp q hq t ht0 ht1
    simp only [Set.mem_setOf_eq] at hp hq ⊢
    nlinarith [mul_nonneg ht0 (by linarith : (0 : ℚ) ≤ q.2 - ymin),
      mul_nonneg (by linarith : (0 : ℚ) ≤ 1 - t) (by linarith : (0 : ℚ) ≤ p.2 - ymin)]
  · have := clipDemiPlan_dans 0 1 ymax _ w hw
    unfold fval at this
    linarith

/-- Claim C5 : pour une grille aux conventions standard (`dx > 0`,
`dy < 0`), un triangle dont l'empreinte XY est entierement hors de
l'etendue de la grille ne recoit aucune entree de correspondance dans
`mapping_surface` (et aucune erreur n'est levee : la fonction est totale);
de meme tout triangle degenere (aire `≤ 0`) est silencieusement saute. -/
theorem C5_disjonction (points : ℕ → Point) (tris : List (ℕ × ℕ × ℕ))
    (gt : GeoTransform) (nbl ncol : ℕ) (t : ℕ) (tri : ℕ × ℕ × ℕ)
    (hdx : 0 < gt.dx) (hdy : gt.dy < 0)
    (hget : tris[t]? = some tri)
    (hcas : (∀ q, dansTri (points tri.1) (points tri.2.1) (points tri.2.2) q →
        ¬ dansEtendue gt nbl ncol q) ∨
      airePoly [points tri.1, points tri.2.1, points tri.2.2] ≤ 0) :
    ∀ key a, (t, a) ∉ dget (mapping_surface points tris gt nbl ncol) key := by
  intro key a hmem
  rw [mem_dget_mapping_surface, mem_fluxEnregs] at hmem
  obtain ⟨i, tri2, hget2, hmem2⟩ := hmem
  have hmem3 : ((key.1, key.2), (t, a)) ∈ enregsTriangle gt nbl ncol i
      (points tri2.1) (points tri2.2.1) (points tri2.2.2) := hmem2
  obtain ⟨hti, hdeg, hlig, hcol, ha, hpos⟩ :=
    (mem_enregsTriangle gt nbl ncol i (points tri2.1) (points tri2.2.1)
      (points tri2.2.2) key.1 key.2 t a).mp hmem3
  subst hti
  rw [hget] at hget2
  have htri : tri = tri2 := Option.some_injective _ hget2
  subst htri
  rcases hcas with hdisj | hd
  · rw [mem_plageInt] at hlig hcol
    have h0l : (0 : ℤ) ≤ key.1 := le_trans (le_max_right _ 0) hlig.1
    have hbl : key.1 ≤ (nbl : ℤ) - 1 := le_trans hlig.2 (min_le_right _ _)
    have h0c : (0 : ℤ) ≤ key.2 := le_trans (le_max_right _ 0) hcol.1
    have hbc : key.2 ≤ (ncol : ℤ) - 1 := le_trans hcol.2 (min_le_right _ _)
    cases hP : clipRect [points tri.1, points tri.2.1, points tri.2.2]
        (gt.x0 + key.2 * gt.dx) (gt.y0 + (key.1 + 1) * gt.dy)
        (gt.x0 + (key.2 + 1) * gt.dx) (gt.y0 + key.1 * gt.dy) with
    | nil =>
        have hz : a = 0 := by
          rw [ha]
          unfold aireInterPixel
          rw [hP]
          simp [airePoly, aireSignee]
        rw [hz] at hpos
        exact lt_irrefl 0 hpos
    | cons w ws =>
        have hw : w ∈ clipRect [points tri.1, points tri.2.1, points tri.2.2]
            (gt.x0 + key.2 * gt.dx) (gt.y0 + (key.1 + 1) * gt.dy)
            (gt.x0 + (key.2 + 1) * gt.dx) (gt.y0 + key.1 * gt.dy) := by
          rw [hP]
          exact List.mem_cons_self w ws
        obtain ⟨hwTri, hx1, hx2, hy1, hy2⟩ :=
          clipRect_mem (points tri.1) (points tri.2.1) (points tri.2.2)
            (gt.x0 + key.2 * gt.dx) (gt.y0 + (key.1 + 1) * gt.dy)
            (gt.x0 + (key.2 + 1) * gt.dx) (gt.y0 + key.1 * gt.dy) w hw
        apply hdisj w hwTri
        have hc1 : (0 : ℚ) ≤ (key.2 : ℚ) := by exact_mod_cast h0c
        have hc2 : ((key.2 : ℚ)) + 1 ≤ (ncol : ℚ) := by
          have h2 : key.2 + 1 ≤ (ncol : ℤ) := by omega
          exact_mod_cast h2
        have hl1 : (0 : ℚ) ≤ (key.1 : ℚ) := by exact_mod_cast h0l
        have hl2 : ((key.1 : ℚ)) + 1 ≤ (nbl : ℚ) := by
          have h2 : key.1 + 1 ≤ (nbl : ℤ) := by omega
          exact_mod_cast h2
        refine ⟨?_, ?_, ?_, ?_⟩
        · have h3 : 0 ≤ (key.2 : ℚ) * gt.dx := mul_nonneg hc1 hdx.le
          linarith
        · have h3 : ((key.2 : ℚ) + 1) * gt.dx ≤ (ncol : ℚ) * gt.dx :=
            mul_le_mul_of_nonneg_right hc2 hdx.le
          linarith
        · have h3 : (nbl : ℚ) * gt.dy ≤ ((key.1 : ℚ) + 1) * gt.dy :=
            mul_le_mul_of_nonpos_right hl2 hdy.le
          linarith
        · have h3 : (key.1 : ℚ) * gt.dy ≤ 0 := by nlinarith
          linarith
  · exact absurd hdeg (not_lt.mpr hd)

lemma temoinC5_dehors : ∀ q : Point,
    dansTri ((-10 : ℚ), (0 : ℚ)) ((-9 : ℚ), (0 : ℚ)) ((-9 : ℚ), (1 : ℚ)) q →
    ¬ dansEtendue ⟨0, 1, 0, 2, 0, -1⟩ 2 2 q := by
  rintro q ⟨a, b, c, ha, hb, hc, hs, hq⟩ hE
  obtain ⟨hx0, -, -, -⟩ := hE
  subst hq
  have h2 : (0 : ℚ) ≤ a * (-10) + b * (-9) + c * (-9) := hx0
  linarith

section TemoinsConcrets

attribute [local semireducible] Rat.add Rat.mul Rat.sub Rat.inv

/-- Claim C2, temoin de la version corrigee : sur le mapping
`{(0, 0) : [(0, 1), (1, 1)]}` avec `val_tri = [5.0, NaN]`, le mode simple
donne NaN au pixel (aucune exclusion), le mode pondere exclut la paire non
finie et donne `5.0`, une cle absente reste sans valeur, et
`projette_triangles_surface` donne aussi `5.0`. -/
theorem C2_sm_vers_mh_temoin :
    sm_vers_mh_raster [((0, 0), [(0, 1), (1, 1)])]
      (fun i => if i = 0 then some 5 else none) false (0, 0) = none ∧
    sm_vers_mh_raster [((0, 0), [(0, 1), (1, 1)])]
      (fun i => if i = 0 then some 5 else none) true (0, 0) = some 5 ∧
    sm_vers_mh_raster [((0, 0), [(0, 1), (1, 1)])]
      (fun i => if i = 0 then some 5 else none) false (5, 5) = none ∧
    projette_triangles_surface (fun i => if i = 0 then some 5 else none)
      [((0, 0), [(0, 1), (1, 1)])] (0, 0) = some 5 := by
  have h := C2_sm_vers_mh [((0, 0), [(0, 1), (1, 1)])]
    (fun i => if i = 0 then some 5 else none) false (by decide)
  have h2 := C2_sm_vers_mh [((0, 0), [(0, 1), (1, 1)])]
    (fun i => if i = 0 then some 5 else none) true (by decide)
  refine ⟨?_, ?_, ?_, ?_⟩
  · rw [h.1 (0, 0) [(0, 1), (1, 1)] (by decide)]
    decide
  · rw [h2.1 (0, 0) [(0, 1), (1, 1)] (by decide)]
    decide
  · exact h.2.1 (5, 5) (by decide)
  · rw [h.2.2 (0, 0) [(0, 1), (1, 1)] (by decide)]
    decide

/-- Claim C8, contre-exemple : la valeur finie `1/3` est ecrite `"0.33"`
puis relue `33/100 ≠ 1/3` — l'aller-retour n'est pas exact sur les valeurs
finies, contrairement a l'enonce. -/
theorem C8_contre_exemple :
    lire_val (ecrire_val [1] [some (1/3)]) = [33/100] ∧
    (33 : ℚ)/100 ≠ 1/3 := by
  constructor
  · decide
  · decide

/-- Claim C8, temoin de la version corrigee : les valeurs a deux decimales
`[0.25, NaN, 0.12]` (facettes de tailles 1 et 2) sont relues
`[0.25, 0.0, 0.12]` : valeurs exactes conservees, non finie relue 0. -/
theorem C8_aller_retour_temoin :
    ([some ((1 : ℚ)/4), none, some (3/25)] : List Val).length = [1, 2].sum ∧
    lire_val (ecrire_val [1, 2] [some ((1 : ℚ)/4), none, some (3/25)]) =
      [1/4, 0, 3/25] := by
  constructor
  · decide
  · rw [C8_aller_retour [1, 2] [some ((1 : ℚ)/4), none, some (3/25)] (by decide)]
    decide

/-- Claim C9, temoin : pour le triangle `(0,0), (2,0), (0,2)` sur la grille
2x2 d'origine `(0, 2)` et pas 1, la cle `(0, 0)` du mapping surfacique et
la cle `(1, 0)` du mapping barycentrique sont dans les bornes. -/
theorem C9_bornes_indices_temoin :
    ((0 : ℤ) ≤ (0 : ℤ) ∧ (0 : ℤ) < (2 : ℤ) ∧ (0 : ℤ) ≤ (0 : ℤ) ∧
      (0 : ℤ) < (2 : ℤ)) ∧
    ((0 : ℤ) ≤ (1 : ℤ) ∧ (1 : ℤ) < (2 : ℤ) ∧ (0 : ℤ) ≤ (0 : ℤ) ∧
      (0 : ℤ) < (2 : ℤ)) := by
  have h := C9_bornes_indices
    (fun i => if i = 0 then ((0 : ℚ), (0 : ℚ)) else if i = 1 then (2, 0) else (0, 2))
    [(0, 1, 2)] ⟨0, 1, 0, 2, 0, -1⟩ 2 2
  exact ⟨h.1 (0, 0) [(0, 1/2)] (by decide), h.2 (1, 0) [0] (by decide)⟩

/-- Claim C4, contre-exemple : le triangle effile `(0,0), (1,0), (1, 2⁻⁵⁰)`
sur la grille 1x1 d'origine `(0, 1)` et pas 1 recoit une entree d'aire
d'intersection `2⁻⁵¹ ≈ 4.4e-16`, tres en dessous de tout epsilon
raisonnable : aucune aire strictement positive n'est traitee comme une
absence de recouvrement, le seuil est le zero code en dur.  Toutes les
coordonnees et toutes les valeurs intermediaires (`2⁻⁵⁰ - 1`, `1 - 2⁻⁵⁰`,
les produits du lacet, `2⁻⁵¹`) sont des flottants IEEE double exacts, si
bien que le code source effectue exactement la meme arithmetique que le
modele rationnel sur cette entree : la fenetre candidate est la seule
cellule `(0, 0)` et l'aire enregistree vaut exactement `2⁻⁵¹`. -/
theorem C4_contre_exemple :
    (0, (1 : ℚ)/2251799813685248) ∈
      dget (mapping_surface
        (fun i => if i = 0 then ((0 : ℚ), (0 : ℚ)) else if i = 1 then (1, 0)
          else (1, 1/1125899906842624))
        [(0, 1, 2)] ⟨0, 1, 0, 1, 0, -1⟩ 1 1) (0, 0) ∧
    (1 : ℚ)/2251799813685248 < 1/1000000000000 := by
  constructor
  · decide
  · decide

/-- Claim C5, temoin : le triangle `(-10,0), (-9,0), (-9,1)` est
entierement a gauche de la grille 2x2 d'origine `(0, 2)` et ne recoit
aucune entree; le triangle degenere `(0,0), (1,1), (2,2)` (aire nulle) non
plus. -/
theorem C5_disjonction_temoin :
    ((0 : ℕ), (1 : ℚ)) ∉ dget (mapping_surface
      (fun i => if i = 0 then ((-10 : ℚ), (0 : ℚ)) else if i = 1 then (-9, 0)
        else (-9, 1))
      [(0, 1, 2)] ⟨0, 1, 0, 2, 0, -1⟩ 2 2) (0, 0) ∧
    ((0 : ℕ), (1 : ℚ)) ∉ dget (mapping_surface
      (fun i => if i = 0 then ((0 : ℚ), (0 : ℚ)) else if i = 1 then (1, 1)
        else (2, 2))
      [(0, 1, 2)] ⟨0, 1, 0, 2, 0, -1⟩ 2 2) (0, 0) := by
  constructor
  · exact C5_disjonction
      (fun i => if i = 0 then ((-10 : ℚ), (0 : ℚ)) else if i = 1 then (-9, 0)
        else (-9, 1))
      [(0, 1, 2)] ⟨0, 1, 0, 2, 0, -1⟩ 2 2 0 (0, 1, 2)
      (by decide) (by decide) (by decide) (Or.inl temoinC5_dehors) (0, 0) 1
  · exact C5_disjonction
      (fun i => if i = 0 then ((0 : ℚ), (0 : ℚ)) else if i = 1 then (1, 1)
        else (2, 2))
      [(0, 1, 2)] ⟨0, 1, 0, 2, 0, -1⟩ 2 2 0 (0, 1, 2)
      (by decide) (by decide) (by decide) (Or.inr (by decide)) (0, 0) 1

/-- Claim C6, contre-exemple : pour le point monde `(-1/2, 1/2)` et le
geotransform `(0, 1, 0, 0, 0, -1)` (qui satisfait `dx > 0` et `dy < 0`),
`xy_vers_pixel` retourne `(0, 0)` alors que la formule des parties
entieres de la revendication donne `(-1, -1)` : `int(...)` de Python
tronque vers zero et ne realise pas `floor` pour les quotients negatifs. -/
theorem C6_contre_exemple :
    xy_vers_pixel (-1/2) (1/2) ⟨0, 1, 0, 0, 0, -1⟩ = (0, 0) ∧
    (⌊(((1 : ℚ)/2 - 0) / (-1))⌋, ⌊(((-1 : ℚ)/2 - 0) / 1)⌋) = (-1, -1) ∧
    ((0, 0) : ℤ × ℤ) ≠ (-1, -1) := by
  refine ⟨by decide, by decide, by decide⟩

/-- Claim C6, temoin : pour `(x, y) = (1/2, 1/2)` dans la grille de
geotransform `(0, 1, 0, 2, 0, -1)`, les hypotheses sont satisfaites et la
cellule retournee est `(ligne, colonne) = (1, 0)`. -/
theorem C6_indexation_grille_temoin :
    (0 : ℚ) < 1 ∧ (-1 : ℚ) < 0 ∧ (0 : ℚ) ≤ 1/2 ∧ (1/2 : ℚ) ≤ 2 ∧
    xy_vers_pixel (1/2) (1/2) ⟨0, 1, 0, 2, 0, -1⟩ = (1, 0) := by
  refine ⟨by decide, by decide, by decide, by decide, ?_⟩
  have h := C6_indexation_grille (1/2) (1/2) ⟨0, 1, 0, 2, 0, -1⟩
    (by decide) (by decide) (by decide) (by decide)
  rw [h]
  decide

/-- Claim C3, temoin : inversion du mapping concret
`{(0, 0) : [(0, 1/2), (2, 1/4)], (1, 1) : [(0, 1/3)]}` avec trois
triangles declares : l'id 1, absent du mapping direct, est lie a la liste
vide, et la liste de l'id 0 enumere ses deux occurrences. -/
theorem C3_inversion_totale_temoin :
    ((0 : ℕ) < 3 ∧
      (dchercher (inverser_mapping
        [((0, 0), [(0, 1/2), (2, 1/4)]), ((1, 1), [(0, 1/3)])] 3) 1).isSome) ∧
    dget (inverser_mapping
        [((0, 0), [(0, 1/2), (2, 1/4)]), ((1, 1), [(0, 1/3)])] 3) 0 =
      [(0, 0, 1/2), (1, 1, 1/3)] ∧
    dchercher (inverser_mapping
        [((0, 0), [(0, 1/2), (2, 1/4)]), ((1, 1), [(0, 1/3)])] 3) 1 = some [] := by
  have h := C3_inversion_totale
    [((0, 0), [(0, 1/2), (2, 1/4)]), ((1, 1), [(0, 1/3)])] 3
  refine ⟨⟨by decide, h.1 1 (by decide)⟩, ?_, ?_⟩
  · rw [h.2.1 0]
    decide
  · exact h.2.2 1 (by decide) (by decide)

/-- Claim C1, temoin : pour le raster valant `4.0` en `(0, 0)` et NaN
ailleurs, et le mapping `{0 : [(0, 0, 1/2), (0, 1, 1/3)], 1 : []}`, la
moyenne ponderee du triangle 0 ecarte le pixel non fini et vaut
`(4*(1/2))/(1/2) = 4`. -/
theorem C1_moyenne_pixels_temoin :
    (([((0 : ℕ), [((0 : ℤ), (0 : ℤ), (1 : ℚ)/2), (0, 1, 1/3)]),
        (1, [])].map Prod.fst).Nodup) ∧
    moyenne_pixels_par_triangle
      (fun l c => if l = 0 ∧ c = 0 then some 4 else none)
      [((0 : ℕ), [((0 : ℤ), (0 : ℤ), (1 : ℚ)/2), (0, 1, 1/3)]), (1, [])]
      true none 0 = some 4 := by
  constructor
  · decide
  · rw [C1_moyenne_pixels (fun l c => if l = 0 ∧ c = 0 then some 4 else none)
      [((0 : ℕ), [((0 : ℤ), (0 : ℤ), (1 : ℚ)/2), (0, 1, 1/3)]), (1, [])] true
      (by decide) 0 [((0 : ℤ), (0 : ℤ), (1 : ℚ)/2), (0, 1, 1/3)] (by decide)]
    decide

/-- Claim C7, temoin : raster constant egal a `7.0` sur la colonne 0 et NaN
ailleurs; le triangle 0 (un pixel fini, un pixel NaN) recoit exactement 7,
le triangle 1 (aucun pixel) garde le marqueur d'absence. -/
theorem C7_agregation_constante_temoin :
    moyenne_pixels_par_triangle (fun _ c => if c = 0 then some 7 else none)
      [((0 : ℕ), [((0 : ℤ), (0 : ℤ), (1 : ℚ)/2), (0, 1, 1/3)]), (1, [])]
      true none 0 = some 7 ∧
    moyenne_pixels_par_triangle (fun _ c => if c = 0 then some 7 else none)
      [((0 : ℕ), [((0 : ℤ), (0 : ℤ), (1 : ℚ)/2), (0, 1, 1/3)]), (1, [])]
      true none 1 = none := by
  have hconst : ∀ l c : ℤ,
      (fun (_ c : ℤ) => if c = 0 then some (7 : ℚ) else none) l c = none ∨
      (fun (_ c : ℤ) => if c = 0 then some (7 : ℚ) else none) l c = some 7 := by
    intro l c
    by_cases hc : c = 0
    · right; simp [hc]
    · left; simp [hc]
  constructor
  · exact (C7_agregation_constante _ _ 7 (by decide) (by decide) hconst 0
      [((0 : ℤ), (0 : ℤ), (1 : ℚ)/2), (0, 1, 1/3)] (by decide)).1
      ⟨((0 : ℤ), (0 : ℤ), (1 : ℚ)/2), by decide, by decide⟩
  · exact (C7_agregation_constante _ _ 7 (by decide) (by decide) hconst 1
      [] (by decide)).2
      (by intro p hp; exact absurd hp (List.not_mem_nil p))


end TemoinsConcrets
